import Mathlib

/-!
# Block-assembly worker (miner/worker.go)

A shallow embedding of the mining worker: fruit selection (`commitFruit`,
`commitFruits`), fast-block selection (`commitFastBlocks`), the result
pipeline (`wait`) and the work builder (`commitNewWork`), followed by the
properties established for them.

Conventions of the embedding

* `*big.Int` values are natural numbers; `Uint64()` keeps the low 64 bits and
  `uint64` arithmetic wraps modulo `2 ^ 64`.
* A nil slice and an empty slice are both the empty list: the code only ever
  tests slices it has built by `append`, or re-tests emptiness further on.
* A nil fast number and the fast number zero are both `0`: `wait` discards
  both, and a header drafted without a fast block reports zero.
* The `int32` counter `atWork` is an integer changed through `wrapInt32`, the
  wrap-around of `atomic.AddInt32`.
* Locks, logging and sleeping have no effect on the modelled state; every
  function body is one atomic step.
-/

namespace Miner

/-! ## Data model -/

abbrev Hash := Nat

abbrev Address := Nat

/-- The `types.PbftSign` record: an opaque signature over a fast block. -/
structure PbftSign where
  payload : Nat
  deriving DecidableEq, Repr

/-- The `types.CopyPbftSign` function: a copy by value. -/
def CopyPbftSign (s : PbftSign) : PbftSign := { payload := s.payload }

/-- The `types.SnailHeader` record. `hash` is the value `Hash()` reports for a
header received from the chain or the pool; hashing itself lies outside
worker.go and a header drafted by the worker is never hashed there. -/
structure SnailHeader where
  ParentHash : Hash
  Coinbase : Address
  PointerHash : Hash
  FastNumber : Nat
  FastHash : Hash
  Difficulty : Nat
  Number : Nat
  Time : Int
  Extra : List Nat
  ToElect : Bool
  Publickey : List Nat
  hash : Hash
  deriving DecidableEq, Repr

/-- The `types.SnailBlock` record: a header, the embedded fruits and the
fast-block signatures. A fruit is itself a `SnailBlock`. -/
inductive SnailBlock where
  | mk (header : SnailHeader) (fruits : List SnailBlock) (signs : List PbftSign) : SnailBlock

namespace SnailBlock

def Header : SnailBlock → SnailHeader
  | mk h _ _ => h

def Fruits : SnailBlock → List SnailBlock
  | mk _ fs _ => fs

def Signs : SnailBlock → List PbftSign
  | mk _ _ ss => ss

def Hash (b : SnailBlock) : Miner.Hash := b.Header.hash

def ParentHash (b : SnailBlock) : Miner.Hash := b.Header.ParentHash

def Number (b : SnailBlock) : Nat := b.Header.Number

def NumberU64 (b : SnailBlock) : Nat := b.Header.Number % 2 ^ 64

def FastNumber (b : SnailBlock) : Nat := b.Header.FastNumber

def PointerHash (b : SnailBlock) : Miner.Hash := b.Header.PointerHash

def Time (b : SnailBlock) : Int := b.Header.Time

end SnailBlock

/-- Modelled from the spec: `types.NewSnailBlock` (package types is not part
of the source): the draft block made of the header, the fruit list and the
signature list; the body argument is always nil in worker.go. -/
def NewSnailBlock (header : SnailHeader) (fruits : List SnailBlock) (signs : List PbftSign) :
    SnailBlock :=
  SnailBlock.mk header fruits signs

/-- The body of a fast block (`types.Body`): its PBFT signatures. -/
structure Body where
  Signs : List PbftSign
  deriving DecidableEq, Repr

/-- The `types.Block` record, a fast block: number, hash and body. -/
structure Block where
  number : Nat
  hash : Hash
  body : Body
  deriving DecidableEq, Repr

namespace Block

def Number (b : Block) : Nat := b.number

def NumberU64 (b : Block) : Nat := b.number % 2 ^ 64

def Hash (b : Block) : Miner.Hash := b.hash

end Block

/-- Modelled from the spec: the read interface of `chain.SnailBlockChain`
(package snailchain is not part of the source), as used by worker.go:
`CurrentBlock()`, `GetBlockByHash(h)`, `GetBlockByNumber(n)` and
`GetBlocksFromHash(h, n)`. A lookup that finds nothing returns nil. -/
structure SnailBlockChain where
  CurrentBlock : SnailBlock
  GetBlockByHash : Hash → Option SnailBlock
  GetBlockByNumber : Nat → Option SnailBlock
  GetBlocksFromHash : Hash → Nat → List SnailBlock

/-- The error values worker.go returns; `Option Err` stands for Go's `error`
with `none` for nil. -/
inductive Err where
  | ErrInvalidNumber
  | ErrInvalidPointer
  | ErrFreshness
  | ErrNoFastBlockToMiner
  | uncleNotUnique
  | uncleParentUnknown
  | uncleInFamily
  deriving DecidableEq, Repr

/-- The `Work` record: the environment of the current build cycle. The sets
`ancestors`, `family` and `uncles` are lists without duplicates. -/
structure Work where
  ancestors : List Hash
  family : List Hash
  uncles : List Hash
  tcount : Nat
  Block : Option SnailBlock
  header : SnailHeader
  fruits : List SnailBlock
  signs : List PbftSign
  createdAt : Int

/-! ## Constants and machine arithmetic -/

/-- The constant `fruitFreshness = big.NewInt(17)`. -/
def fruitFreshness : Int := 17

/-- The constant `pointerHashFresh = big.NewInt(7)`. -/
def pointerHashFresh : Int := 7

/-- The `Uint64()` reading of a big integer: its low 64 bits. -/
def Uint64 (x : Nat) : Nat := x % 2 ^ 64

/-- Subtraction of two `uint64` values, wrapping modulo `2 ^ 64`. -/
def subU64 (a b : Nat) : Nat := (a + (2 ^ 64 - b % 2 ^ 64)) % 2 ^ 64

/-- The value an `int32` holds after an arithmetic result `x`: two's
complement wrap-around into the range from `-2 ^ 31` to `2 ^ 31 - 1`. -/
def wrapInt32 (x : Int) : Int := (x + 2 ^ 31) % 2 ^ 32 - 2 ^ 31

/-! ## Fruit selection -/

/-- The method `Work.commitFruit`: the three admission checks on one fruit. -/
def Work.commitFruit (env : Work) (fruit : SnailBlock) (bc : SnailBlockChain)
    (lastNumber : Nat) : Option Err :=
  if fruit.FastNumber ≤ lastNumber then
    some Err.ErrInvalidNumber
  else
    match bc.GetBlockByHash fruit.PointerHash with
    | none => some Err.ErrInvalidPointer
    | some pointer =>
      let freshNumber : Int := (env.header.Number : Int) - (pointer.Number : Int)
      if freshNumber > fruitFreshness then
        some Err.ErrFreshness
      else
        none

/-- The first loop of `Work.commitFruits` ("find the continue fruits"), from
the loop state `startCoypfruits`, `fruitsContine`; returning the accumulator
without reading the rest of the list is the `break`. -/
def continueFruits (lastFastNumber : Nat) :
    List SnailBlock → Bool → List SnailBlock → List SnailBlock
  | [], _, fruitsContine => fruitsContine
  | fruit :: rest, startCoypfruits, fruitsContine =>
    let startCoypfruits := if lastFastNumber = 0 then true else startCoypfruits
    if lastFastNumber = fruit.FastNumber ∨
        Uint64 lastFastNumber = subU64 (Uint64 fruit.FastNumber) 1 then
      continueFruits lastFastNumber rest true (fruitsContine ++ [fruit])
    else if startCoypfruits then
      if Uint64 lastFastNumber < Uint64 fruit.FastNumber then
        match fruitsContine.getLast? with
        | none => continueFruits lastFastNumber rest startCoypfruits (fruitsContine ++ [fruit])
        | some prev =>
          if Uint64 prev.FastNumber = subU64 (Uint64 fruit.FastNumber) 1 then
            continueFruits lastFastNumber rest startCoypfruits (fruitsContine ++ [fruit])
          else
            fruitsContine
      else
        continueFruits lastFastNumber rest startCoypfruits fruitsContine
    else
      continueFruits lastFastNumber rest startCoypfruits fruitsContine

/-- The baseline of `Work.commitFruits`: the fast number of the last fruit of
the chain head, zero when the head has no fruit. -/
def lastFastNumberOf (bc : SnailBlockChain) : Nat :=
  match bc.CurrentBlock.Fruits.getLast? with
  | some f => f.FastNumber
  | none => 0

/-- The second loop of `Work.commitFruits`: every continuous fruit goes
through `commitFruit` and is appended when no error comes back. -/
def commitContinued (bc : SnailBlockChain) (lastFastNumber : Nat) :
    List SnailBlock → Work → Work
  | [], env => env
  | fruit :: rest, env =>
    match env.commitFruit fruit bc lastFastNumber with
    | none => commitContinued bc lastFastNumber rest { env with fruits := env.fruits ++ [fruit] }
    | some _ => commitContinued bc lastFastNumber rest env

/-- The method `Work.commitFruits`. The coinbase argument is not read. -/
def Work.commitFruits (env : Work) (fruits : List SnailBlock) (bc : SnailBlockChain)
    (_coinbase : Address) : Work :=
  let lastFastNumber := lastFastNumberOf bc
  let fruitsContine := continueFruits lastFastNumber fruits false []
  commitContinued bc lastFastNumber fruitsContine env

/-! ## Worker state -/

/-- A registered `Agent`: an identity and whether `Work()` hands back a
channel (a nil channel receives nothing). -/
structure Agent where
  id : Nat
  hasWorkCh : Bool
  deriving DecidableEq, Repr

/-- The `Result` record an agent sends back on the result channel. -/
structure Result where
  Work : Work
  Block : SnailBlock

/-- The status `WriteCanonicalBlock` reports (`chain.WriteStatus`). -/
inductive WriteStatus where
  | NonStatTy
  | CanonStatTy
  | SideStatTy
  deriving DecidableEq, Repr

/-- The events handed to `PostChainEvents`. -/
inductive ChainEvents where
  | ChainEvent (block : SnailBlock) (hash : Hash)
  | ChainHeadEvent (block : SnailBlock)

/-- The calls the worker makes on its collaborators, in program order. -/
inductive Effect where
  | AddRemoteFruits (newFruits : List SnailBlock)
  | NewMinedBlockEvent (block : SnailBlock)
  | PostChainEvents (events : List ChainEvents)
  | Send (agent : Agent) (work : Work)

/-- The `worker` record, without its channels, subscriptions and locks.
`possibleUncles` and `agents` are Go maps: the lists give their entries in
the order in which the run at hand iterates over them. `FastBlockNumber` is
allocated by `newWorker` and never reset to nil. `current` is read by `wait`
and `commitFastBlocks` only after `makeCurrent` has installed it. -/
structure worker where
  agents : List Agent
  coinbase : Address
  extra : List Nat
  toElect : Bool
  FruitOnly : Bool
  publickey : List Nat
  current : Work
  snapshotBlock : Option SnailBlock
  possibleUncles : List (Hash × SnailBlock)
  unconfirmed : List (Nat × Hash)
  mining : Int
  atWork : Int
  atCommintNewWoker : Bool
  FastBlockNumber : Nat

/-- The fields of `params.ChainConfig` read by `commitNewWork`, together with
the two constants of package params it uses. -/
structure ChainConfig where
  DAOForkBlock : Option Nat
  DAOForkSupport : Bool
  DAOForkExtraRange : Nat
  DAOForkBlockExtra : List Nat

/-- Modelled from the spec: the consensus engine (package consensus is not
part of the source). `PrepareSnail` populates the difficulty of the drafted
header or fails (`none`); `FinalizeSnail` returns the block to seal or fails
(`none`). -/
structure Engine where
  PrepareSnail : SnailBlockChain → SnailHeader → Option Nat
  FinalizeSnail : SnailBlockChain → SnailHeader → List SnailHeader → List SnailBlock →
    List PbftSign → Option SnailBlock

/-- Modelled from the spec: what the snail pool answers to `PendingFastBlocks()`
and `PendingFruits()` during one build cycle; `none` is a non-nil error. -/
structure SnailPool where
  PendingFastBlocks : Option (List Block)
  PendingFruits : Option (List SnailBlock)

/-- The constant `miningLogAtDepth`. -/
def miningLogAtDepth : Nat := 5

/-- Modelled from the spec: `unconfirmedBlocks.Insert` (the tracker is not
part of the source) adds the pair to the ordered set. -/
def unconfirmedInsert (set : List (Nat × Hash)) (index : Nat) (hash : Hash) : List (Nat × Hash) :=
  set ++ [(index, hash)]

/-- Modelled from the spec: `unconfirmedBlocks.Shift(n)` (the tracker is not
part of the source) prunes the entries older than `n - miningLogAtDepth`. -/
def unconfirmedShift (set : List (Nat × Hash)) (height : Nat) : List (Nat × Hash) :=
  set.filter (fun e => decide (height < e.1 + miningLogAtDepth + 1))

/-! ## Fast-block selection -/

/-- The loop of `worker.commitFastBlocks` over the pending fast blocks: the
watermark it leaves and the block it picked, if any. -/
def selectFastBlock : List Block → Nat → Nat × Option Block
  | [], FastBlockNumber => (FastBlockNumber, none)
  | fb :: rest, FastBlockNumber =>
    if Uint64 FastBlockNumber = 0 then
      (0, some fb)
    else if Uint64 FastBlockNumber ≥ fb.NumberU64 then
      selectFastBlock rest FastBlockNumber
    else
      (FastBlockNumber, some fb)

/-- The method `worker.commitFastBlocks`: the worker afterwards and the error
returned. -/
def worker.commitFastBlocks (self : worker) (fastBlocks : List Block) : worker × Option Err :=
  if self.mining = 0 then
    (self, none)
  else if fastBlocks.isEmpty then
    (self, some Err.ErrNoFastBlockToMiner)
  else
    match selectFastBlock fastBlocks self.FastBlockNumber with
    | (FastBlockNumber, none) => ({ self with FastBlockNumber := FastBlockNumber }, none)
    | (FastBlockNumber, some fastBlock) =>
      let header := { self.current.header with
        FastNumber := fastBlock.Number, FastHash := fastBlock.Hash }
      let signs := fastBlock.body.Signs.map CopyPbftSign
      ({ self with
          FastBlockNumber := FastBlockNumber
          current := { self.current with header := header, signs := signs } }, none)

/-! ## Result pipeline -/

/-- One iteration of the loop of `worker.wait` on a received result (`none`
is a nil result). `IsFruit` is the predicate of package types and
`WriteCanonicalBlock` the answer of the chain, `none` for an error; neither
is part of the source. Returns the worker afterwards and the calls made. -/
def worker.wait (self : worker) (IsFruit : SnailBlock → Bool)
    (WriteCanonicalBlock : SnailBlock → Option WriteStatus) (result : Option Result) :
    worker × List Effect :=
  let self := { self with atWork := wrapInt32 (self.atWork - 1) }
  match result with
  | none => (self, [])
  | some result =>
    let block := result.Block
    if IsFruit block then
      if block.FastNumber = 0 then
        (self, [])
      else
        let calls :=
          if self.FastBlockNumber ≠ block.FastNumber then [Effect.AddRemoteFruits [block]] else []
        let self := { self with FastBlockNumber := Uint64 block.FastNumber }
        if self.current.fruits.isEmpty then
          ({ self with atCommintNewWoker := false }, calls)
        else
          (self, calls)
    else
      match WriteCanonicalBlock block with
      | none => (self, [])
      | some stat =>
        let events := [ChainEvents.ChainEvent block block.Hash]
        let events :=
          if stat = WriteStatus.CanonStatTy then events ++ [ChainEvents.ChainHeadEvent block]
          else events
        ({ self with
            unconfirmed := unconfirmedInsert self.unconfirmed block.NumberU64 block.Hash
            atCommintNewWoker := false },
          [Effect.NewMinedBlockEvent block, Effect.PostChainEvents events])

/-- The loop of `worker.wait` over the results received in turn: the worker
at the end and all calls made, in order. -/
def waitAll (IsFruit : SnailBlock → Bool) (WriteCanonicalBlock : SnailBlock → Option WriteStatus) :
    worker → List (Option Result) → worker × List Effect
  | self, [] => (self, [])
  | self, result :: rest =>
    let step := self.wait IsFruit WriteCanonicalBlock result
    let tail := waitAll IsFruit WriteCanonicalBlock step.1 rest
    (tail.1, step.2 ++ tail.2)

/-! ## Work builder -/

/-- The `Add` method of the hash sets of a `Work`. -/
def setAdd (s : List Hash) (h : Hash) : List Hash :=
  if h ∈ s then s else s ++ [h]

/-- The method `worker.push`: the worker afterwards and the work sent to the
agents. -/
def worker.push (self : worker) (work : Work) : worker × List Effect :=
  if self.mining ≠ 1 then
    ({ self with atCommintNewWoker := false }, [])
  else
    ({ self with
        atWork := self.agents.foldl (fun atWork _ => wrapInt32 (atWork + 1)) self.atWork },
      (self.agents.filter (fun agent => agent.hasWorkCh)).map (fun agent => Effect.Send agent work))

/-- The method `worker.makeCurrent`: a new `Work` whose ancestors and family
are the hashes of the seven blocks ending at the parent. -/
def worker.makeCurrent (self : worker) (bc : SnailBlockChain) (parent : SnailBlock)
    (header : SnailHeader) (now : Int) : worker :=
  let hashes := (bc.GetBlocksFromHash parent.Hash 7).map SnailBlock.Hash
  let work : Work :=
    { ancestors := hashes.foldl setAdd []
      family := hashes.foldl setAdd []
      uncles := []
      tcount := 0
      Block := none
      header := header
      fruits := []
      signs := []
      createdAt := now }
  { self with current := work }

/-- The method `worker.commitUncle`: the work afterwards and the error. -/
def worker.commitUncle (work : Work) (uncle : SnailHeader) : Work × Option Err :=
  let hash := uncle.hash
  if hash ∈ work.uncles then
    (work, some Err.uncleNotUnique)
  else if uncle.ParentHash ∉ work.ancestors then
    (work, some Err.uncleParentUnknown)
  else if hash ∈ work.family then
    (work, some Err.uncleInFamily)
  else
    ({ work with uncles := setAdd work.uncles uncle.hash }, none)

/-- The uncle loop of `worker.commitNewWork` over the entries of
`possibleUncles`, from the loop state `uncles`, `badUncles`. -/
def commitUncles : Work → List (Hash × SnailBlock) → List SnailHeader → List Hash →
    Work × List SnailHeader × List Hash
  | work, [], uncles, badUncles => (work, uncles, badUncles)
  | work, (hash, uncle) :: rest, uncles, badUncles =>
    if uncles.length = 2 then
      (work, uncles, badUncles)
    else
      match worker.commitUncle work uncle.Header with
      | (work, some _) => commitUncles work rest uncles (badUncles ++ [hash])
      | (work, none) => commitUncles work rest (uncles ++ [uncle.Header]) badUncles

/-- The method `worker.updateSnapshot`. -/
def worker.updateSnapshot (self : worker) : worker :=
  { self with
    snapshotBlock :=
      some (NewSnailBlock self.current.header self.current.fruits self.current.signs) }

/-- The DAO-fork override of the extra data in `worker.commitNewWork`. -/
def daoExtra (config : ChainConfig) (header : SnailHeader) : SnailHeader :=
  match config.DAOForkBlock with
  | none => header
  | some daoBlock =>
    let limit := daoBlock + config.DAOForkExtraRange
    if header.Number ≥ daoBlock ∧ header.Number < limit then
      if config.DAOForkSupport then
        { header with Extra := config.DAOForkBlockExtra }
      else if header.Extra = config.DAOForkBlockExtra then
        { header with Extra := [] }
      else
        header
    else
      header

/-- The header literal of `worker.commitNewWork` for the parent at hand, with
the coinbase set when mining is on. -/
def worker.draftHeader (self : worker) (parent : SnailBlock) (now : Int) : SnailHeader :=
  let tstamp := if parent.Time ≥ now then parent.Time + 1 else now
  let num := parent.Number
  { ParentHash := parent.Hash
    ToElect := self.toElect
    Publickey := self.publickey
    Number := num + 1
    Extra := self.extra
    Time := tstamp
    Coinbase := if self.mining = 1 then self.coinbase else 0
    PointerHash := 0
    FastNumber := 0
    FastHash := 0
    Difficulty := 0
    hash := 0 }

/-- The number of the pointer block in `worker.commitNewWork`: the parent
number less `pointerHashFresh`, zero when that is negative, read as `uint64`. -/
def pointerNumber (parent : SnailBlock) : Nat :=
  let pointerNum : Int := (parent.Number : Int) - pointerHashFresh
  let pointerNum : Int := if pointerNum < 0 then 0 else pointerNum
  Uint64 pointerNum.toNat

/-- The release of the build latch before an early return. -/
def worker.release (self : worker) : worker :=
  { self with atCommintNewWoker := false }

/-- The part of `worker.commitNewWork` that fills the current work: fast-block
selection, fruit selection and the draft block. -/
def worker.fillWork (self : worker) (fastblock : List Block) (fruits : List SnailBlock)
    (bc : SnailBlockChain) : worker :=
  let w1 := if fastblock.isEmpty then self else (self.commitFastBlocks fastblock).1
  let w2 :=
    if fruits.isEmpty then w1
    else { w1 with current := w1.current.commitFruits fruits bc w1.coinbase }
  let block := NewSnailBlock w2.current.header w2.current.fruits w2.current.signs
  { w2 with current := { w2.current with Block := some block } }

/-- The end of `worker.commitNewWork`: uncle selection, finalisation by the
engine, dispatch to the agents and the snapshot. -/
def worker.sealWork (self : worker) (engine : Engine) (bc : SnailBlockChain) :
    worker × List Effect :=
  let selected := commitUncles self.current self.possibleUncles [] []
  let work := selected.1
  let uncles := selected.2.1
  let badUncles := selected.2.2
  let w1 : worker :=
    { self with
      current := work
      possibleUncles := self.possibleUncles.filter (fun e => decide (e.1 ∉ badUncles)) }
  match engine.FinalizeSnail bc work.header uncles work.fruits work.signs with
  | none => ({ w1 with current := { work with Block := none } }.release, [])
  | some sealing =>
    let w2 : worker := { w1 with current := { work with Block := some sealing } }
    let w3 : worker :=
      if w2.mining = 1 then
        { w2 with unconfirmed := unconfirmedShift w2.unconfirmed (subU64 sealing.NumberU64 1) }
      else w2
    let pushed := w3.push w3.current
    (pushed.1.updateSnapshot, pushed.2)

/-- The part of `worker.commitNewWork` from the first "nothing to mine" test
on: the test on the pending inputs, the filling of the work, the test on the
draft block and the sealing. -/
def worker.buildWork (self : worker) (engine : Engine) (bc : SnailBlockChain)
    (fastblock : List Block) (fruits : List SnailBlock) : worker × List Effect :=
  if fastblock.isEmpty ∧ fruits.isEmpty then
    (self.release, [])
  else
    let w1 := self.fillWork fastblock fruits bc
    let block := NewSnailBlock w1.current.header w1.current.fruits w1.current.signs
    if block.FastNumber = 0 ∧ block.Fruits.isEmpty then
      (w1.release, [])
    else
      w1.sealWork engine bc

/-- The part of `worker.commitNewWork` after `makeCurrent`: the pending
inputs are fetched, the fruits are dropped in fruit-only mode, and the work is
built. -/
def worker.gatherWork (self : worker) (engine : Engine) (pool : SnailPool)
    (bc : SnailBlockChain) : worker × List Effect :=
  match pool.PendingFastBlocks with
  | none => (self.release, [])
  | some fastblock =>
    match pool.PendingFruits with
    | none => (self.release, [])
    | some pending =>
      let fruits := if self.FruitOnly then [] else pending
      self.buildWork engine bc fastblock fruits

/-- The header `worker.commitNewWork` hands to `makeCurrent`: the drafted
header with the difficulty set by the engine, the pointer hash and the
DAO-fork override of the extra data. -/
def worker.preparedHeader (self : worker) (config : ChainConfig) (parent : SnailBlock)
    (now : Int) (difficulty : Nat) (pointer : SnailBlock) : SnailHeader :=
  daoExtra config
    { self.draftHeader parent now with Difficulty := difficulty, PointerHash := pointer.Hash }

/-- The setting of the build latch at the start of `worker.commitNewWork`. -/
def worker.latch (self : worker) : worker :=
  { self with atCommintNewWoker := true }

/-- The method `worker.commitNewWork`, run at clock reading `now`: the worker
afterwards and the work sent to the agents. The result is `none` when
`GetBlockByNumber` finds no block for the pointer and the nil block is
dereferenced. The DAO hard-fork state change touches `work.state` only, which
is not part of the model. -/
def worker.commitNewWork (self : worker) (config : ChainConfig) (engine : Engine)
    (pool : SnailPool) (bc : SnailBlockChain) (now : Int) : Option (worker × List Effect) :=
  let parent := bc.CurrentBlock
  let w0 := self.latch
  match engine.PrepareSnail bc (self.draftHeader parent now) with
  | none => some (w0.release, [])
  | some difficulty =>
    match bc.GetBlockByNumber (pointerNumber parent) with
    | none => none
    | some pointer =>
      let header := self.preparedHeader config parent now difficulty pointer
      let w1 := w0.makeCurrent bc parent header now
      some (w1.gatherWork engine pool bc)

/-! ## Observations used in the statements -/

/-- The selection rule in the words of the specification: the first pending
fast block when the watermark is zero, otherwise the first one, in list
order, whose number exceeds the watermark. -/
def specSelectFastBlock (watermark : Nat) (pending : List Block) : Option Block :=
  if watermark = 0 then pending.head?
  else pending.find? (fun fb => decide (watermark < fb.number))

/-- The fast number of a result that `wait` treats as a fruit to record: a
non-nil result whose block is a fruit with a non-zero fast number. -/
def acceptedFruit (IsFruit : SnailBlock → Bool) : Option Result → Option Nat
  | none => none
  | some result =>
    if IsFruit result.Block = true ∧ result.Block.FastNumber ≠ 0 then
      some result.Block.FastNumber
    else none

/-- The fast numbers handed to `AddRemoteFruits` by a sequence of calls, in
order. -/
def publishedFastNumbers : List Effect → List Nat
  | [] => []
  | Effect.AddRemoteFruits newFruits :: rest =>
    newFruits.map SnailBlock.FastNumber ++ publishedFastNumbers rest
  | _ :: rest => publishedFastNumbers rest

/-- A header with the given number and hash and nothing else set. -/
def sampleHeader (number : Nat) (hash : Hash) : SnailHeader :=
  { ParentHash := 0, Coinbase := 0, PointerHash := 0, FastNumber := 0, FastHash := 0,
    Difficulty := 0, Number := number, Time := 0, Extra := [], ToElect := false,
    Publickey := [], hash := hash }

/-- A fruit for the fast block `fast` whose pointer is the block of hash `pointer`. -/
def sampleFruit (fast : Nat) (pointer : Hash) : SnailBlock :=
  SnailBlock.mk { sampleHeader 0 (5000 + fast) with FastNumber := fast, PointerHash := pointer } [] []

/-- A chain block of the given number, with hash `1000 + number`. -/
def sampleBlock (number : Nat) (fruits : List SnailBlock) : SnailBlock :=
  SnailBlock.mk (sampleHeader number (1000 + number)) fruits []

/-- A chain with the given head whose lookups search the given blocks. -/
def sampleChain (head : SnailBlock) (blocks : List SnailBlock) : SnailBlockChain :=
  { CurrentBlock := head
    GetBlockByHash := fun h => blocks.find? (fun b => b.Hash == h)
    GetBlockByNumber := fun n => blocks.find? (fun b => b.Number == n)
    GetBlocksFromHash := fun _ _ => [] }

/-- A freshly created `Work` around the given header. -/
def sampleWork (header : SnailHeader) : Work :=
  { ancestors := [], family := [], uncles := [], tcount := 0, Block := none,
    header := header, fruits := [], signs := [], createdAt := 0 }

/-- A chain whose head, block 100, ends with a fruit of fast number 40, and
which knows the blocks 90 and 80. -/
def chain40 : SnailBlockChain :=
  sampleChain (sampleBlock 100 [sampleFruit 40 1090])
    [sampleBlock 100 [sampleFruit 40 1090], sampleBlock 90 [], sampleBlock 80 []]

/-- A chain whose head, block 100, has no fruit, and which knows the blocks
100, 93, 90 and 80. -/
def chain0 : SnailBlockChain :=
  sampleChain (sampleBlock 100 [])
    [sampleBlock 100 [], sampleBlock 93 [], sampleBlock 90 [], sampleBlock 80 []]

/-- A worker that is mining, with one agent, the given watermark and a fresh
current work for candidate header 101. -/
def sampleWorker (watermark : Nat) : worker :=
  { agents := [{ id := 1, hasWorkCh := true }]
    coinbase := 77
    extra := []
    toElect := false
    FruitOnly := false
    publickey := []
    current := sampleWork (sampleHeader 101 0)
    snapshotBlock := none
    possibleUncles := []
    unconfirmed := []
    mining := 1
    atWork := 0
    atCommintNewWoker := false
    FastBlockNumber := watermark }

/-- A fast block of the given number, with hash `9000 + number` and one
signature. -/
def sampleFastBlock (number : Nat) : Block :=
  { number := number, hash := 9000 + number, body := { Signs := [{ payload := number }] } }

/-- A fruit predicate for the samples: a block without embedded fruits. -/
def sampleIsFruit (b : SnailBlock) : Bool := b.Fruits.isEmpty

/-- A chain write that always succeeds as canonical. -/
def sampleWrite (_b : SnailBlock) : Option WriteStatus := some WriteStatus.CanonStatTy

/-- A sealed fruit result for the fast block `fast`. -/
def sampleResult (fast : Nat) : Option Result :=
  some { Work := sampleWork (sampleHeader 101 0), Block := sampleFruit fast 1090 }

/-- A chain configuration without a DAO fork block. -/
def sampleConfig : ChainConfig :=
  { DAOForkBlock := none, DAOForkSupport := false, DAOForkExtraRange := 10,
    DAOForkBlockExtra := [100, 97, 111] }

/-- An engine that prepares every header with difficulty 1 and finalises by
assembling the block from its parts. -/
def sampleEngine : Engine :=
  { PrepareSnail := fun _ _ => some 1
    FinalizeSnail := fun _ header _ fruits signs => some (SnailBlock.mk header fruits signs) }

/-- A pool that answers with the given pending fast blocks and fruits. -/
def samplePool (fastblock : List Block) (fruits : List SnailBlock) : SnailPool :=
  { PendingFastBlocks := some fastblock, PendingFruits := some fruits }

/-- A chain whose head has number `2 ^ 64 + 7` and which knows the blocks of
number `2 ^ 64 + 7`, `2 ^ 64` and 0. -/
def chainWrap : SnailBlockChain :=
  sampleChain (sampleBlock (2 ^ 64 + 7) [])
    [sampleBlock (2 ^ 64 + 7) [], sampleBlock (2 ^ 64) [], sampleBlock 0 []]

/-- The sample worker at watermark 0, switched to fruit-only mode. -/
def sampleWorkerFruitOnly : worker :=
  { sampleWorker 0 with FruitOnly := true }

/-- Three fresh pending fruits with fast numbers 10, 11, 12, pointing at
block 93 of `chain0`. -/
def sampleFruits : List SnailBlock :=
  [sampleFruit 10 1093, sampleFruit 11 1093, sampleFruit 12 1093]

/-- A chain write that always fails. -/
def sampleWriteFails (_b : SnailBlock) : Option WriteStatus := none

/-- A sealed full block of number 101 that embeds one fruit. -/
def sampleSealed : Result :=
  { Work := sampleWork (sampleHeader 101 0)
    Block := sampleBlock 101 [sampleFruit 41 1090] }

/-- A freshly created work whose ancestors and family are the blocks of hash
1100 and 1099. -/
def sampleUncleWork : Work :=
  { sampleWork (sampleHeader 101 0) with ancestors := [1100, 1099], family := [1100, 1099] }

/-- The sample worker at watermark 55 whose `atWork` counter holds the least
`int32`. -/
def sampleWorkerLow : worker :=
  { sampleWorker 55 with atWork := -2147483648 }

theorem subU64_one (a : Nat) (h1 : 1 ≤ a) (h2 : a < 2 ^ 64) : subU64 a 1 = a - 1 := by
  unfold subU64
  norm_num at h2 ⊢
  omega

theorem Uint64_of_lt (a : Nat) (h : a < 2 ^ 64) : Uint64 a = a := by
  unfold Uint64
  exact Nat.mod_eq_of_lt h

/-- C1, evaluated on the code: with the parent ending at fast number 40 and
candidate header 101, the pending fruits 41, 42, 43 of which 42 points to the
stale block 80 are selected as 41, 43 (a gap), and the pending fruits 41, 41
are selected as 41, 41 (a duplicate). -/
theorem commitFruits_not_continuous :
    ((sampleWork (sampleHeader 101 0)).commitFruits
        [sampleFruit 41 1090, sampleFruit 42 1080, sampleFruit 43 1090] chain40 0).fruits.map
        SnailBlock.FastNumber = [41, 43] ∧
    ((sampleWork (sampleHeader 101 0)).commitFruits
        [sampleFruit 41 1090, sampleFruit 41 1090] chain40 0).fruits.map
        SnailBlock.FastNumber = [41, 41] := by
  decide

theorem commitFruit_eq_none_iff (env : Work) (fruit : SnailBlock) (bc : SnailBlockChain)
    (lastNumber : Nat) :
    env.commitFruit fruit bc lastNumber = none ↔
      lastNumber < fruit.FastNumber ∧
      ∃ pointer, bc.GetBlockByHash fruit.PointerHash = some pointer ∧
        (env.header.Number : Int) - (pointer.Number : Int) ≤ 17 := by
  unfold Work.commitFruit fruitFreshness
  by_cases h1 : fruit.FastNumber ≤ lastNumber
  · simp [h1]
  · cases hp : bc.GetBlockByHash fruit.PointerHash with
    | none => simp [h1]
    | some pointer =>
      by_cases h2 : (env.header.Number : Int) - (pointer.Number : Int) > 17
      · simp [h1, h2]
        omega
      · simp [h1, h2]
        omega

theorem commitContinued_spec (bc : SnailBlockChain) (lastFastNumber : Nat)
    (l : List SnailBlock) :
    ∀ env : Work, ∃ added : List SnailBlock,
      (commitContinued bc lastFastNumber l env).fruits = env.fruits ++ added ∧
      (commitContinued bc lastFastNumber l env).header = env.header ∧
      ∀ f ∈ added, env.commitFruit f bc lastFastNumber = none := by
  induction l with
  | nil =>
    intro env
    exact ⟨[], by simp [commitContinued], rfl, by simp⟩
  | cons fruit rest ih =>
    intro env
    cases hc : env.commitFruit fruit bc lastFastNumber with
    | none =>
      obtain ⟨added, h1, h2, h3⟩ := ih { env with fruits := env.fruits ++ [fruit] }
      refine ⟨fruit :: added, ?_, ?_, ?_⟩
      · simp only [commitContinued, hc, h1]
        simp
      · simp only [commitContinued, hc, h2]
      · intro f hf
        rcases List.mem_cons.mp hf with rfl | hf
        · exact hc
        · exact h3 f hf
    | some e =>
      obtain ⟨added, h1, h2, h3⟩ := ih env
      refine ⟨added, ?_, ?_, h3⟩
      · simp only [commitContinued, hc, h1]
      · simp only [commitContinued, hc, h2]

theorem commitFruits_header (env : Work) (fruits : List SnailBlock) (bc : SnailBlockChain)
    (coinbase : Address) : (env.commitFruits fruits bc coinbase).header = env.header := by
  obtain ⟨_, _, h2, _⟩ :=
    commitContinued_spec bc (lastFastNumberOf bc)
      (continueFruits (lastFastNumberOf bc) fruits false []) env
  exact h2

/-- C2: whatever the work, the pending fruits and the chain, `commitFruits`
only appends to `work.fruits`, leaves the header alone, and every fruit it
appends has a fast number strictly above the fast number of the last fruit of
the parent block (zero when the parent has none), a pointer hash that
resolves to a chain block, and header number minus the number of that block
at most 17. -/
theorem commitFruits_admitted (env : Work) (fruits : List SnailBlock) (bc : SnailBlockChain)
    (coinbase : Address) :
    ∃ added : List SnailBlock,
      (env.commitFruits fruits bc coinbase).fruits = env.fruits ++ added ∧
      (env.commitFruits fruits bc coinbase).header = env.header ∧
      ∀ f ∈ added,
        lastFastNumberOf bc < f.FastNumber ∧
        ∃ pointer, bc.GetBlockByHash f.PointerHash = some pointer ∧
          (env.header.Number : Int) - (pointer.Number : Int) ≤ 17 := by
  obtain ⟨added, h1, h2, h3⟩ :=
    commitContinued_spec bc (lastFastNumberOf bc)
      (continueFruits (lastFastNumberOf bc) fruits false []) env
  refine ⟨added, h1, h2, ?_⟩
  intro f hf
  exact (commitFruit_eq_none_iff env f bc (lastFastNumberOf bc)).mp (h3 f hf)

theorem continueFruits_cut (lastFastNumber : Nat) (f prev : SnailBlock)
    (post : List SnailBlock)
    (hseam : ¬ (lastFastNumber = f.FastNumber ∨
      Uint64 lastFastNumber = subU64 (Uint64 f.FastNumber) 1))
    (habove : Uint64 lastFastNumber < Uint64 f.FastNumber)
    (hdev : Uint64 prev.FastNumber ≠ subU64 (Uint64 f.FastNumber) 1)
    (pre : List SnailBlock) :
    ∀ (start : Bool) (acc : List SnailBlock), (acc ≠ [] → start = true) →
      (continueFruits lastFastNumber pre start acc).getLast? = some prev →
      continueFruits lastFastNumber (pre ++ f :: post) start acc =
        continueFruits lastFastNumber pre start acc := by
  induction pre with
  | nil =>
    intro start acc hinv hlast
    simp only [continueFruits] at hlast
    have hne : acc ≠ [] := by
      intro h
      simp [h] at hlast
    have hstart : start = true := hinv hne
    simp only [List.nil_append, continueFruits, hseam, hstart, habove, hlast, hdev]
    simp
  | cons x xs ih =>
    intro start acc hinv hlast
    simp only [List.cons_append, continueFruits] at hlast ⊢
    have hinv1 : acc ≠ [] → (if lastFastNumber = 0 then true else start) = true := by
      intro hne
      simp [hinv hne]
    generalize (if lastFastNumber = 0 then true else start) = start1 at hlast hinv1 ⊢
    by_cases hx : lastFastNumber = x.FastNumber ∨
        Uint64 lastFastNumber = subU64 (Uint64 x.FastNumber) 1
    · simp only [if_pos hx, List.append_eq] at hlast ⊢
      exact ih true (acc ++ [x]) (fun _ => rfl) hlast
    · simp only [if_neg hx, List.append_eq] at hlast ⊢
      by_cases hs : start1 = true
      · simp only [if_pos hs, List.append_eq] at hlast ⊢
        by_cases hlt : Uint64 lastFastNumber < Uint64 x.FastNumber
        · simp only [if_pos hlt, List.append_eq] at hlast ⊢
          cases hg : acc.getLast? with
          | none =>
            simp only [hg, List.append_eq] at hlast ⊢
            exact ih start1 (acc ++ [x]) (fun _ => hs) hlast
          | some p =>
            simp only [hg, List.append_eq] at hlast ⊢
            by_cases hp : Uint64 p.FastNumber = subU64 (Uint64 x.FastNumber) 1
            · simp only [if_pos hp, List.append_eq] at hlast ⊢
              exact ih start1 (acc ++ [x]) (fun _ => hs) hlast
            · simp only [if_neg hp, List.append_eq] at hlast ⊢
        · simp only [if_neg hlt, List.append_eq] at hlast ⊢
          exact ih start1 acc (fun _ => hs) hlast
      · simp only [if_neg hs, List.append_eq] at hlast ⊢
        exact ih start1 acc hinv1 hlast

/-- C3, counterexample: with the parent ending at fast number 40, the pending
fruits 41, 30, 42 are selected as 41, 42. The backward step to 30 does not
end the selection: the fruit 42, which comes after it, is selected. -/
theorem commitFruits_backward_step_skipped :
    ((sampleWork (sampleHeader 101 0)).commitFruits
        [sampleFruit 41 1090, sampleFruit 30 1090, sampleFruit 42 1090] chain40 0).fruits.map
        SnailBlock.FastNumber = [41, 42] := by
  decide

/-- C3, amended: once the continuity scan of `commitFruits` has accepted a
fruit, a later fruit whose fast number lies above the seam (greater than the
baseline plus one) and is not exactly one greater than the fast number of the
previously accepted fruit ends the selection: the outcome is that of the
pending list cut just before this fruit, so nothing at or after its position
is selected. Fast numbers are below `2 ^ 64`. -/
theorem commitFruits_deviation_ends (env : Work) (bc : SnailBlockChain) (coinbase : Address)
    (pre post : List SnailBlock) (f prev : SnailBlock)
    (hstarted : (continueFruits (lastFastNumberOf bc) pre false []).getLast? = some prev)
    (hprev : prev.FastNumber < 2 ^ 64) (hf : f.FastNumber < 2 ^ 64)
    (habove : lastFastNumberOf bc + 1 < f.FastNumber)
    (hdev : f.FastNumber ≠ prev.FastNumber + 1) :
    env.commitFruits (pre ++ f :: post) bc coinbase = env.commitFruits pre bc coinbase := by
  have hl : lastFastNumberOf bc < 2 ^ 64 := by omega
  have e1 : Uint64 (lastFastNumberOf bc) = lastFastNumberOf bc := Uint64_of_lt _ hl
  have e2 : Uint64 f.FastNumber = f.FastNumber := Uint64_of_lt _ hf
  have e3 : Uint64 prev.FastNumber = prev.FastNumber := Uint64_of_lt _ hprev
  have e4 : subU64 f.FastNumber 1 = f.FastNumber - 1 := subU64_one _ (by omega) hf
  have hcut := continueFruits_cut (lastFastNumberOf bc) f prev post
    (by rw [e1, e2, e4]; omega) (by rw [e1, e2]; omega) (by rw [e3, e2, e4]; omega)
    pre false [] (by simp) hstarted
  unfold Work.commitFruits
  simp only [hcut]

/-- C3, witness: parent ending at fast number 40 and pending fruits 41, 42,
44, 45: the fruit 44 ends the selection and exactly 41, 42 are selected. -/
theorem commitFruits_deviation_ends_witness :
    (sampleWork (sampleHeader 101 0)).commitFruits
        ([sampleFruit 41 1090, sampleFruit 42 1090] ++
          sampleFruit 44 1090 :: [sampleFruit 45 1090]) chain40 0 =
      (sampleWork (sampleHeader 101 0)).commitFruits
        [sampleFruit 41 1090, sampleFruit 42 1090] chain40 0 ∧
    ((sampleWork (sampleHeader 101 0)).commitFruits
        [sampleFruit 41 1090, sampleFruit 42 1090, sampleFruit 44 1090, sampleFruit 45 1090]
        chain40 0).fruits = [sampleFruit 41 1090, sampleFruit 42 1090] :=
  ⟨commitFruits_deviation_ends (sampleWork (sampleHeader 101 0)) chain40 0
      [sampleFruit 41 1090, sampleFruit 42 1090] [sampleFruit 45 1090]
      (sampleFruit 44 1090) (sampleFruit 42 1090) rfl (by decide) (by decide) (by decide)
      (by decide),
    rfl⟩

/-! ## Properties of fast-block selection -/

theorem selectFastBlock_eq_spec (pending : List Block) (w : Nat) (hw : w < 2 ^ 64)
    (hp : ∀ fb ∈ pending, fb.number < 2 ^ 64) :
    selectFastBlock pending w = (w, specSelectFastBlock w pending) := by
  induction pending with
  | nil => simp [selectFastBlock, specSelectFastBlock]
  | cons fb rest ih =>
    have hfb : fb.number < 2 ^ 64 := hp fb (List.mem_cons_self _ _)
    have ih1 := ih (fun b hb => hp b (List.mem_cons_of_mem _ hb))
    have e1 : Uint64 w = w := Uint64_of_lt w hw
    have e2 : fb.NumberU64 = fb.number := Nat.mod_eq_of_lt hfb
    by_cases h0 : w = 0
    · subst h0
      simp [selectFastBlock, specSelectFastBlock, Uint64]
    · simp only [selectFastBlock, e1, e2, if_neg h0]
      by_cases hge : w ≥ fb.number
      · rw [if_pos hge, ih1]
        have hlt : ¬ w < fb.number := by omega
        simp [specSelectFastBlock, h0, hlt]
      · rw [if_neg hge]
        have hlt : w < fb.number := by omega
        simp [specSelectFastBlock, h0, hlt]

/-- C4, counterexample: with mining on, watermark 5 and a single pending fast
block of number `2 ^ 64 + 1`, the rule of the specification selects that
block (its number exceeds 5), but `commitFastBlocks` compares the low 64
bits, 1, with the watermark, skips it and leaves the header untouched. -/
theorem commitFastBlocks_wraps :
    (sampleWorker 5).mining = 1 ∧
    specSelectFastBlock 5 [sampleFastBlock (2 ^ 64 + 1)] = some (sampleFastBlock (2 ^ 64 + 1)) ∧
    (selectFastBlock [sampleFastBlock (2 ^ 64 + 1)] 5).2 = none ∧
    ((sampleWorker 5).commitFastBlocks [sampleFastBlock (2 ^ 64 + 1)]).1.current.header =
      (sampleWorker 5).current.header := by
  decide

theorem map_CopyPbftSign (signs : List PbftSign) : signs.map CopyPbftSign = signs := by
  induction signs with
  | nil => rfl
  | cons s rest ih => simp [CopyPbftSign, ih]

/-- C4, amended: with mining on, a watermark below `2 ^ 64` and pending fast
blocks whose numbers are below `2 ^ 64`, `commitFastBlocks` selects the first
list element when the watermark is zero and otherwise the first element, in
list order, whose number is strictly greater than the watermark. On selection
the header gets that block's number and hash as `FastNumber` and `FastHash`
(nothing else in it changes) and `current.signs` becomes a copy of the block's
signatures; when no element qualifies the header and the signs are left
unchanged. The watermark is never changed. -/
theorem commitFastBlocks_selects (self : worker) (fastBlocks : List Block)
    (hmining : self.mining = 1) (hw : self.FastBlockNumber < 2 ^ 64)
    (hp : ∀ fb ∈ fastBlocks, fb.number < 2 ^ 64) :
    (∀ fb, specSelectFastBlock self.FastBlockNumber fastBlocks = some fb →
      (self.commitFastBlocks fastBlocks).1.current.header =
        { self.current.header with FastNumber := fb.number, FastHash := fb.hash } ∧
      (self.commitFastBlocks fastBlocks).1.current.signs = fb.body.Signs) ∧
    (specSelectFastBlock self.FastBlockNumber fastBlocks = none →
      (self.commitFastBlocks fastBlocks).1.current.header = self.current.header ∧
      (self.commitFastBlocks fastBlocks).1.current.signs = self.current.signs) ∧
    (self.commitFastBlocks fastBlocks).1.FastBlockNumber = self.FastBlockNumber := by
  have hm : self.mining ≠ 0 := by rw [hmining]; decide
  have hsel := selectFastBlock_eq_spec fastBlocks self.FastBlockNumber hw hp
  unfold worker.commitFastBlocks
  rw [if_neg hm]
  cases fastBlocks with
  | nil => simp [specSelectFastBlock]
  | cons b rest =>
    simp only [List.isEmpty_cons, Bool.false_eq_true, if_false, hsel]
    cases hspec : specSelectFastBlock self.FastBlockNumber (b :: rest) with
    | none => simp
    | some fb => simp [map_CopyPbftSign, Block.Number, Block.Hash]

/-- C4, witness: watermark 55 and pending fast blocks 54, 55, 56, 57: the
block 56 is selected. -/
theorem commitFastBlocks_selects_witness :
    ((sampleWorker 55).commitFastBlocks
        [sampleFastBlock 54, sampleFastBlock 55, sampleFastBlock 56,
          sampleFastBlock 57]).1.current.header =
      { (sampleWorker 55).current.header with FastNumber := 56, FastHash := 9056 } ∧
    ((sampleWorker 55).commitFastBlocks
        [sampleFastBlock 54, sampleFastBlock 55, sampleFastBlock 56,
          sampleFastBlock 57]).1.current.signs = [{ payload := 56 }] :=
  (commitFastBlocks_selects (sampleWorker 55)
      [sampleFastBlock 54, sampleFastBlock 55, sampleFastBlock 56, sampleFastBlock 57]
      rfl (by decide) (by decide)).1 (sampleFastBlock 56) (by decide)

/-! ## Properties of the result pipeline -/

theorem acceptedFruit_some (IsFruit : SnailBlock → Bool) (r : Result)
    (hf : IsFruit r.Block = true) (h0 : r.Block.FastNumber ≠ 0) :
    acceptedFruit IsFruit (some r) = some r.Block.FastNumber := by
  simp [acceptedFruit, hf, h0]

theorem acceptedFruit_zero (IsFruit : SnailBlock → Bool) (r : Result)
    (h0 : r.Block.FastNumber = 0) : acceptedFruit IsFruit (some r) = none := by
  simp [acceptedFruit, h0]

theorem acceptedFruit_block (IsFruit : SnailBlock → Bool) (r : Result)
    (hf : ¬ IsFruit r.Block = true) : acceptedFruit IsFruit (some r) = none := by
  simp [acceptedFruit, hf]

theorem wait_watermark (self : worker) (IsFruit : SnailBlock → Bool)
    (WriteCanonicalBlock : SnailBlock → Option WriteStatus) (result : Option Result) :
    (self.wait IsFruit WriteCanonicalBlock result).1.FastBlockNumber =
      match acceptedFruit IsFruit result with
      | some N => Uint64 N
      | none => self.FastBlockNumber := by
  cases result with
  | none => simp [worker.wait, acceptedFruit]
  | some r =>
    by_cases hf : IsFruit r.Block = true
    · by_cases h0 : r.Block.FastNumber = 0
      · rw [acceptedFruit_zero IsFruit r h0]
        simp [worker.wait, hf, h0]
      · rw [acceptedFruit_some IsFruit r hf h0]
        simp only [worker.wait, hf, h0, if_true, if_false]
        split <;> rfl
    · rw [acceptedFruit_block IsFruit r hf]
      simp only [worker.wait, hf]
      cases WriteCanonicalBlock r.Block <;> simp

theorem wait_published (self : worker) (IsFruit : SnailBlock → Bool)
    (WriteCanonicalBlock : SnailBlock → Option WriteStatus) (result : Option Result) :
    publishedFastNumbers (self.wait IsFruit WriteCanonicalBlock result).2 =
      match acceptedFruit IsFruit result with
      | some N => if self.FastBlockNumber ≠ N then [N] else []
      | none => [] := by
  cases result with
  | none => simp [worker.wait, acceptedFruit, publishedFastNumbers]
  | some r =>
    by_cases hf : IsFruit r.Block = true
    · by_cases h0 : r.Block.FastNumber = 0
      · rw [acceptedFruit_zero IsFruit r h0]
        simp [worker.wait, hf, h0, publishedFastNumbers]
      · rw [acceptedFruit_some IsFruit r hf h0]
        simp only [worker.wait, hf, h0, if_true, if_false]
        by_cases hw : self.FastBlockNumber = r.Block.FastNumber
        · split <;> simp [hw, publishedFastNumbers]
        · split <;> simp [hw, publishedFastNumbers, SnailBlock.FastNumber]
    · rw [acceptedFruit_block IsFruit r hf]
      simp only [worker.wait, hf]
      cases WriteCanonicalBlock r.Block <;> simp [publishedFastNumbers]

theorem publishedFastNumbers_append (a b : List Effect) :
    publishedFastNumbers (a ++ b) = publishedFastNumbers a ++ publishedFastNumbers b := by
  induction a with
  | nil => simp [publishedFastNumbers]
  | cons e rest ih =>
    cases e <;> simp [publishedFastNumbers, ih]

theorem acceptedFruit_ne_zero (IsFruit : SnailBlock → Bool) (result : Option Result) (N : Nat)
    (h : acceptedFruit IsFruit result = some N) : N ≠ 0 := by
  cases result with
  | none => simp [acceptedFruit] at h
  | some r =>
    simp only [acceptedFruit] at h
    split at h
    · rename_i hc
      simp only [Option.some.injEq] at h
      rw [← h]
      exact hc.2
    · simp at h

theorem waitAll_published_from (IsFruit : SnailBlock → Bool)
    (WriteCanonicalBlock : SnailBlock → Option WriteStatus) (results : List (Option Result)) :
    ∀ self : worker, self.FastBlockNumber < 2 ^ 64 →
      (∀ r ∈ results, ∀ N, acceptedFruit IsFruit r = some N → N < 2 ^ 64) →
      self.FastBlockNumber ::
          publishedFastNumbers (waitAll IsFruit WriteCanonicalBlock self results).2 =
        List.destutter' (· ≠ ·) self.FastBlockNumber
          (results.filterMap (acceptedFruit IsFruit)) := by
  induction results with
  | nil =>
    intro self _ _
    simp [waitAll, publishedFastNumbers]
  | cons r rest ih =>
    intro self hw hb
    have hrest : ∀ r ∈ rest, ∀ N, acceptedFruit IsFruit r = some N → N < 2 ^ 64 :=
      fun x hx => hb x (List.mem_cons_of_mem _ hx)
    have hwm := wait_watermark self IsFruit WriteCanonicalBlock r
    have hpub := wait_published self IsFruit WriteCanonicalBlock r
    simp only [waitAll, publishedFastNumbers_append]
    cases ha : acceptedFruit IsFruit r with
    | none =>
      rw [ha] at hwm hpub
      simp only at hwm hpub
      have := ih (self.wait IsFruit WriteCanonicalBlock r).1 (by rw [hwm]; exact hw) hrest
      rw [hwm] at this
      rw [hpub, List.filterMap_cons_none ha, List.nil_append]
      exact this
    | some N =>
      rw [ha] at hwm hpub
      simp only at hwm hpub
      have hN : N < 2 ^ 64 := hb r (List.mem_cons_self _ _) N ha
      rw [Uint64_of_lt N hN] at hwm
      have := ih (self.wait IsFruit WriteCanonicalBlock r).1 (by rw [hwm]; exact hN) hrest
      rw [hwm] at this
      rw [hpub, List.filterMap_cons_some ha]
      by_cases hne : self.FastBlockNumber ≠ N
      · rw [if_pos hne, List.destutter'_cons_pos _ hne, ← this]
        simp
      · rw [if_neg hne, List.destutter'_cons_neg _ hne, List.nil_append]
        have heq : self.FastBlockNumber = N := not_not.mp hne
        rw [heq]
        exact this

theorem mem_destutter'_ne (l : List Nat) :
    ∀ a : Nat, ∀ N ∈ a :: l, N ∈ List.destutter' (· ≠ ·) a l := by
  induction l with
  | nil =>
    intro a N hN
    simpa using hN
  | cons b rest ih =>
    intro a N hN
    by_cases hab : a ≠ b
    · rw [List.destutter'_cons_pos _ hab]
      rcases List.mem_cons.mp hN with h | h
      · exact h ▸ List.mem_cons_self _ _
      · exact List.mem_cons_of_mem _ (ih b N h)
    · rw [List.destutter'_cons_neg _ hab]
      have hab1 : a = b := not_not.mp hab
      rcases List.mem_cons.mp hN with h | h
      · exact ih a N (h ▸ List.mem_cons_self _ _)
      · exact ih a N (hab1 ▸ h)

/-- C5, counterexample: from watermark 0, the sealed fruits with fast numbers
55, 56, 55 are handed to the pipeline in turn; the fast number 55 is published
twice. -/
theorem wait_publishes_again :
    (sampleWorker 0).FastBlockNumber = 0 ∧
    publishedFastNumbers
        (waitAll sampleIsFruit sampleWrite (sampleWorker 0)
          [sampleResult 55, sampleResult 56, sampleResult 55]).2 = [55, 56, 55] ∧
    List.count 55
        (publishedFastNumbers
          (waitAll sampleIsFruit sampleWrite (sampleWorker 0)
            [sampleResult 55, sampleResult 56, sampleResult 55]).2) = 2 := by
  decide

/-- C5, amended: for every sequence of sealed results handed to the result
pipeline from watermark 0, with fast numbers below `2 ^ 64`, the fast numbers
published through `AddRemoteFruits` are, in order, the fast numbers of the
accepted fruit results with each run of equal consecutive numbers collapsed
into one. So two publications in a row never carry the same fast number and
every fast number handed in is published at least once; a fast number that
comes back after a different one is published again. -/
theorem waitAll_published (IsFruit : SnailBlock → Bool)
    (WriteCanonicalBlock : SnailBlock → Option WriteStatus) (self : worker)
    (results : List (Option Result)) (h0 : self.FastBlockNumber = 0)
    (hb : ∀ r ∈ results, ∀ N, acceptedFruit IsFruit r = some N → N < 2 ^ 64) :
    publishedFastNumbers (waitAll IsFruit WriteCanonicalBlock self results).2 =
      List.destutter (· ≠ ·) (results.filterMap (acceptedFruit IsFruit)) ∧
    List.Chain' (· ≠ ·)
      (publishedFastNumbers (waitAll IsFruit WriteCanonicalBlock self results).2) ∧
    ∀ N ∈ results.filterMap (acceptedFruit IsFruit),
      N ∈ publishedFastNumbers (waitAll IsFruit WriteCanonicalBlock self results).2 := by
  have haux := waitAll_published_from IsFruit WriteCanonicalBlock results self
    (by rw [h0]; norm_num) hb
  have heq : publishedFastNumbers (waitAll IsFruit WriteCanonicalBlock self results).2 =
      List.destutter (· ≠ ·) (results.filterMap (acceptedFruit IsFruit)) := by
    cases hn : results.filterMap (acceptedFruit IsFruit) with
    | nil =>
      rw [hn, List.destutter'_nil] at haux
      simpa using haux
    | cons n rest =>
      have hn0 : n ≠ 0 := by
        have hmem : n ∈ results.filterMap (acceptedFruit IsFruit) := by
          rw [hn]
          exact List.mem_cons_self _ _
        obtain ⟨r, _, hr⟩ := List.mem_filterMap.mp hmem
        exact acceptedFruit_ne_zero IsFruit r n hr
      have hne : self.FastBlockNumber ≠ n := by
        rw [h0]
        exact fun h => hn0 h.symm
      rw [hn, List.destutter'_cons_pos _ hne] at haux
      rw [List.destutter_cons']
      exact List.tail_eq_of_cons_eq haux
  refine ⟨heq, ?_, ?_⟩
  · rw [heq]
    exact List.destutter_is_chain' _ _
  · intro N hN
    rw [heq]
    cases hn : results.filterMap (acceptedFruit IsFruit) with
    | nil => simp [hn] at hN
    | cons n rest =>
      rw [hn] at hN
      rw [List.destutter_cons']
      exact mem_destutter'_ne rest n N hN

/-- C5, witness: from watermark 0 the sealed fruits 55, 55, 56 are published
as 55, 56. -/
theorem waitAll_published_witness :
    (sampleWorker 0).FastBlockNumber = 0 ∧
    publishedFastNumbers
        (waitAll sampleIsFruit sampleWrite (sampleWorker 0)
          [sampleResult 55, sampleResult 55, sampleResult 56]).2 =
      List.destutter (· ≠ ·) [55, 55, 56] :=
  ⟨rfl,
    (waitAll_published sampleIsFruit sampleWrite (sampleWorker 0)
      [sampleResult 55, sampleResult 55, sampleResult 56] rfl
      (by
        intro r hr N h
        simp only [List.mem_cons, List.mem_singleton, List.not_mem_nil, or_false] at hr
        rcases hr with rfl | rfl | rfl
        · obtain rfl : 55 = N := Option.some.inj h
          norm_num
        · obtain rfl : 55 = N := Option.some.inj h
          norm_num
        · obtain rfl : 56 = N := Option.some.inj h
          norm_num)).1⟩

theorem selectFastBlock_fst (pending : List Block) (w : Nat) (hw : w < 2 ^ 64) :
    (selectFastBlock pending w).1 = w := by
  induction pending with
  | nil => rfl
  | cons fb rest ih =>
    simp only [selectFastBlock, Uint64_of_lt w hw]
    by_cases h0 : w = 0
    · simp [h0]
    · rw [if_neg h0]
      split
      · exact ih
      · rfl

theorem commitFastBlocks_watermark (self : worker) (fastBlocks : List Block)
    (hw : self.FastBlockNumber < 2 ^ 64) :
    (self.commitFastBlocks fastBlocks).1.FastBlockNumber = self.FastBlockNumber := by
  have hsel := selectFastBlock_fst fastBlocks self.FastBlockNumber hw
  unfold worker.commitFastBlocks
  split
  · rfl
  · split
    · rfl
    · split
      · rename_i h
        rw [h] at hsel
        exact hsel
      · rename_i h
        rw [h] at hsel
        exact hsel

/-- The watermark stays below `2 ^ 64`: `newWorker` starts it at zero, `wait`
writes it with `SetUint64` and `commitFastBlocks` only ever resets it to
zero. -/
theorem watermark_bound (self : worker) (hw : self.FastBlockNumber < 2 ^ 64) :
    (∀ (IsFruit : SnailBlock → Bool) (WriteCanonicalBlock : SnailBlock → Option WriteStatus)
        (result : Option Result),
      (self.wait IsFruit WriteCanonicalBlock result).1.FastBlockNumber < 2 ^ 64) ∧
    (∀ fastBlocks : List Block,
      (self.commitFastBlocks fastBlocks).1.FastBlockNumber < 2 ^ 64) := by
  constructor
  · intro IsFruit W result
    rw [wait_watermark]
    cases acceptedFruit IsFruit result with
    | none => exact hw
    | some N => exact Nat.mod_lt _ (by norm_num)
  · intro fastBlocks
    rw [commitFastBlocks_watermark self fastBlocks hw]
    exact hw

/-- C6, counterexample: a worker whose watermark is 55 receives a sealed fruit
of fast number 54; the watermark afterwards is 54, below the watermark
before. -/
theorem wait_lowers_watermark :
    (sampleWorker 55).FastBlockNumber = 55 ∧
    ((sampleWorker 55).wait sampleIsFruit sampleWrite (sampleResult 54)).1.FastBlockNumber = 54 := by
  decide

/-- C6, amended: for a worker whose watermark is below `2 ^ 64`, every
`commitFastBlocks` call leaves the watermark unchanged; a sealed result that
is not an accepted fruit leaves it unchanged; an accepted fruit result of fast
number `N` below `2 ^ 64` sets it to `N`. Hence the watermark does not
decrease across a result unless that result is a fruit whose fast number is
smaller than the watermark. -/
theorem watermark_steps (self : worker) (hw : self.FastBlockNumber < 2 ^ 64) :
    (∀ fastBlocks : List Block,
      (self.commitFastBlocks fastBlocks).1.FastBlockNumber = self.FastBlockNumber) ∧
    (∀ (IsFruit : SnailBlock → Bool) (WriteCanonicalBlock : SnailBlock → Option WriteStatus)
        (result : Option Result),
      acceptedFruit IsFruit result = none →
      (self.wait IsFruit WriteCanonicalBlock result).1.FastBlockNumber = self.FastBlockNumber) ∧
    (∀ (IsFruit : SnailBlock → Bool) (WriteCanonicalBlock : SnailBlock → Option WriteStatus)
        (result : Option Result) (N : Nat),
      acceptedFruit IsFruit result = some N → N < 2 ^ 64 →
      (self.wait IsFruit WriteCanonicalBlock result).1.FastBlockNumber = N) ∧
    (∀ (IsFruit : SnailBlock → Bool) (WriteCanonicalBlock : SnailBlock → Option WriteStatus)
        (result : Option Result),
      (∀ N, acceptedFruit IsFruit result = some N → self.FastBlockNumber ≤ N ∧ N < 2 ^ 64) →
      self.FastBlockNumber ≤
        (self.wait IsFruit WriteCanonicalBlock result).1.FastBlockNumber) := by
  refine ⟨fun fastBlocks => commitFastBlocks_watermark self fastBlocks hw, ?_, ?_, ?_⟩
  · intro IsFruit W result ha
    rw [wait_watermark, ha]
  · intro IsFruit W result N ha hN
    rw [wait_watermark, ha]
    exact Uint64_of_lt N hN
  · intro IsFruit W result h
    rw [wait_watermark]
    cases ha : acceptedFruit IsFruit result with
    | none => exact Nat.le_refl _
    | some N =>
      obtain ⟨h1, h2⟩ := h N ha
      simp only [Uint64_of_lt N h2]
      exact h1

/-- C6, witness: a worker at watermark 55 receives a sealed fruit of fast
number 56: the watermark becomes 56. -/
theorem watermark_steps_witness :
    (sampleWorker 55).FastBlockNumber < 2 ^ 64 ∧
    ((sampleWorker 55).wait sampleIsFruit sampleWrite (sampleResult 56)).1.FastBlockNumber = 56 :=
  ⟨by decide,
    (watermark_steps (sampleWorker 55) (by decide)).2.2.1 sampleIsFruit sampleWrite
      (sampleResult 56) 56 rfl (by decide)⟩

/-- C7, counterexample: `N = 2 ^ 64 + 55` is non-zero and differs from the
watermark 0. After the first fruit result carrying `N` the watermark is 55,
not `N`, and the second fruit result carrying `N` is published again. -/
theorem wait_dedup_wraps :
    sampleIsFruit (sampleFruit (2 ^ 64 + 55) 1090) = true ∧
    (sampleWorker 0).FastBlockNumber ≠ 2 ^ 64 + 55 ∧
    ((sampleWorker 0).wait sampleIsFruit sampleWrite
        (sampleResult (2 ^ 64 + 55))).1.FastBlockNumber = 55 ∧
    publishedFastNumbers
        (((sampleWorker 0).wait sampleIsFruit sampleWrite (sampleResult (2 ^ 64 + 55))).1.wait
          sampleIsFruit sampleWrite (sampleResult (2 ^ 64 + 55))).2 = [2 ^ 64 + 55] := by
  decide

theorem wait_fruit_calls (self : worker) (IsFruit : SnailBlock → Bool)
    (WriteCanonicalBlock : SnailBlock → Option WriteStatus) (r : Result)
    (hf : IsFruit r.Block = true) (h0 : r.Block.FastNumber ≠ 0) :
    (self.wait IsFruit WriteCanonicalBlock (some r)).2 =
      if self.FastBlockNumber ≠ r.Block.FastNumber then [Effect.AddRemoteFruits [r.Block]]
      else [] := by
  simp only [worker.wait, hf, h0, if_true, if_false]
  split <;> rfl

/-- C7, amended: for every non-zero fast number `N` below `2 ^ 64` and every
worker whose watermark differs from `N`, when the result pipeline processes
two consecutive fruit results that both carry `N`, the first is published
with `AddRemoteFruits` as a single-element batch, the second is not
published, and the watermark equals `N` after each of them. -/
theorem wait_dedup (self : worker) (IsFruit : SnailBlock → Bool)
    (WriteCanonicalBlock : SnailBlock → Option WriteStatus) (N : Nat) (r1 r2 : Result)
    (hN0 : N ≠ 0) (hN : N < 2 ^ 64) (hw : self.FastBlockNumber ≠ N)
    (hf1 : IsFruit r1.Block = true) (hn1 : r1.Block.FastNumber = N)
    (hf2 : IsFruit r2.Block = true) (hn2 : r2.Block.FastNumber = N) :
    (self.wait IsFruit WriteCanonicalBlock (some r1)).2 = [Effect.AddRemoteFruits [r1.Block]] ∧
    (self.wait IsFruit WriteCanonicalBlock (some r1)).1.FastBlockNumber = N ∧
    ((self.wait IsFruit WriteCanonicalBlock (some r1)).1.wait IsFruit WriteCanonicalBlock
        (some r2)).2 = [] ∧
    ((self.wait IsFruit WriteCanonicalBlock (some r1)).1.wait IsFruit WriteCanonicalBlock
        (some r2)).1.FastBlockNumber = N := by
  have h1 : r1.Block.FastNumber ≠ 0 := by rw [hn1]; exact hN0
  have h2 : r2.Block.FastNumber ≠ 0 := by rw [hn2]; exact hN0
  have hw1 : (self.wait IsFruit WriteCanonicalBlock (some r1)).1.FastBlockNumber = N := by
    rw [wait_watermark, acceptedFruit_some IsFruit r1 hf1 h1]
    simp only [hn1]
    exact Uint64_of_lt N hN
  refine ⟨?_, hw1, ?_, ?_⟩
  · rw [wait_fruit_calls self IsFruit WriteCanonicalBlock r1 hf1 h1, hn1, if_pos hw]
  · rw [wait_fruit_calls _ IsFruit WriteCanonicalBlock r2 hf2 h2, hn2, hw1]
    simp
  · rw [wait_watermark, acceptedFruit_some IsFruit r2 hf2 h2]
    simp only [hn2]
    exact Uint64_of_lt N hN

/-- C7, witness: `N = 55` at a worker whose watermark is 0. -/
theorem wait_dedup_witness :
    (55 : Nat) ≠ 0 ∧ (sampleWorker 0).FastBlockNumber ≠ 55 ∧
    ((sampleWorker 0).wait sampleIsFruit sampleWrite (sampleResult 55)).2 =
      [Effect.AddRemoteFruits [sampleFruit 55 1090]] ∧
    ((sampleWorker 0).wait sampleIsFruit sampleWrite (sampleResult 55)).1.FastBlockNumber = 55 ∧
    (((sampleWorker 0).wait sampleIsFruit sampleWrite (sampleResult 55)).1.wait sampleIsFruit
        sampleWrite (sampleResult 55)).2 = [] ∧
    (((sampleWorker 0).wait sampleIsFruit sampleWrite (sampleResult 55)).1.wait sampleIsFruit
        sampleWrite (sampleResult 55)).1.FastBlockNumber = 55 :=
  ⟨by decide, by decide,
    wait_dedup (sampleWorker 0) sampleIsFruit sampleWrite 55
      { Work := sampleWork (sampleHeader 101 0), Block := sampleFruit 55 1090 }
      { Work := sampleWork (sampleHeader 101 0), Block := sampleFruit 55 1090 }
      (by decide) (by decide) (by decide) rfl rfl rfl rfl⟩

/-! ## Properties of the work builder -/

theorem commitFastBlocks_frame (self : worker) (fastBlocks : List Block) :
    (self.commitFastBlocks fastBlocks).1.current.header.Number = self.current.header.Number ∧
    (self.commitFastBlocks fastBlocks).1.current.header.PointerHash =
      self.current.header.PointerHash ∧
    (self.commitFastBlocks fastBlocks).1.current.fruits = self.current.fruits ∧
    (self.commitFastBlocks fastBlocks).1.atWork = self.atWork ∧
    (self.commitFastBlocks fastBlocks).1.atCommintNewWoker = self.atCommintNewWoker ∧
    (self.commitFastBlocks fastBlocks).1.mining = self.mining ∧
    (self.commitFastBlocks fastBlocks).1.agents = self.agents := by
  unfold worker.commitFastBlocks
  split
  · simp
  · split
    · simp
    · split <;> simp

theorem commitUncle_frame (work : Work) (uncle : SnailHeader) :
    (worker.commitUncle work uncle).1.header = work.header ∧
    (worker.commitUncle work uncle).1.fruits = work.fruits ∧
    (worker.commitUncle work uncle).1.signs = work.signs := by
  unfold worker.commitUncle
  by_cases h1 : uncle.hash ∈ work.uncles
  · simp [h1]
  · by_cases h2 : uncle.ParentHash ∈ work.ancestors
    · by_cases h3 : uncle.hash ∈ work.family
      · simp [h1, h2, h3]
      · simp [h1, h2, h3]
    · simp [h1, h2]

theorem commitUncles_frame (entries : List (Hash × SnailBlock)) :
    ∀ (work : Work) (uncles : List SnailHeader) (badUncles : List Hash),
      (commitUncles work entries uncles badUncles).1.header = work.header ∧
      (commitUncles work entries uncles badUncles).1.fruits = work.fruits ∧
      (commitUncles work entries uncles badUncles).1.signs = work.signs := by
  induction entries with
  | nil =>
    intro work uncles badUncles
    simp [commitUncles]
  | cons e rest ih =>
    intro work uncles badUncles
    obtain ⟨hash, uncle⟩ := e
    have hf := commitUncle_frame work uncle.Header
    simp only [commitUncles]
    split
    · simp
    · split
      · rename_i w1 e1 heq
        rw [heq] at hf
        obtain ⟨h1, h2, h3⟩ := ih w1 uncles (badUncles ++ [hash])
        exact ⟨h1.trans hf.1, h2.trans hf.2.1, h3.trans hf.2.2⟩
      · rename_i w1 heq
        rw [heq] at hf
        obtain ⟨h1, h2, h3⟩ := ih w1 (uncles ++ [uncle.Header]) badUncles
        exact ⟨h1.trans hf.1, h2.trans hf.2.1, h3.trans hf.2.2⟩

theorem push_spec (self : worker) (work : Work) :
    (self.push work).1.current = self.current ∧
    (((self.push work).2 = [] ∧ (self.push work).1.atWork = self.atWork ∧
        (self.push work).1.atCommintNewWoker = false) ∨
      (self.mining = 1 ∧ ∀ e ∈ (self.push work).2, ∃ agent, e = Effect.Send agent work)) := by
  unfold worker.push
  by_cases hm : self.mining = 1
  · rw [if_neg (not_not.mpr hm)]
    refine ⟨rfl, Or.inr ⟨hm, ?_⟩⟩
    intro e he
    obtain ⟨agent, _, rfl⟩ := List.mem_map.mp he
    exact ⟨agent, rfl⟩
  · rw [if_pos hm]
    exact ⟨rfl, Or.inl ⟨rfl, rfl, rfl⟩⟩

theorem sealWork_spec (self : worker) (engine : Engine) (bc : SnailBlockChain) :
    (self.sealWork engine bc).1.current.header = self.current.header ∧
    (self.sealWork engine bc).1.current.fruits = self.current.fruits ∧
    (((self.sealWork engine bc).2 = [] ∧ (self.sealWork engine bc).1.atWork = self.atWork ∧
        (self.sealWork engine bc).1.atCommintNewWoker = false) ∨
      (self.mining = 1 ∧ ∀ e ∈ (self.sealWork engine bc).2,
        ∃ agent, e = Effect.Send agent (self.sealWork engine bc).1.current)) := by
  obtain ⟨hh, hf, hs⟩ := commitUncles_frame self.possibleUncles self.current [] []
  simp only [worker.sealWork]
  cases engine.FinalizeSnail bc (commitUncles self.current self.possibleUncles [] []).1.header
      (commitUncles self.current self.possibleUncles [] []).2.1
      (commitUncles self.current self.possibleUncles [] []).1.fruits
      (commitUncles self.current self.possibleUncles [] []).1.signs with
  | none => simp [worker.release, hh, hf]
  | some sealing =>
    simp only
    by_cases hm : self.mining = 1
    · simp [hm, worker.push, worker.updateSnapshot, hh, hf]
      exact Or.inr (fun e x _ _ h => ⟨x, h.symm⟩)
    · simp [hm, worker.push, worker.updateSnapshot, hh, hf]

theorem fillWork_frame (self : worker) (fastblock : List Block) (fruits : List SnailBlock)
    (bc : SnailBlockChain) :
    (self.fillWork fastblock fruits bc).current.header.Number = self.current.header.Number ∧
    (self.fillWork fastblock fruits bc).current.header.PointerHash =
      self.current.header.PointerHash ∧
    (self.fillWork fastblock fruits bc).atWork = self.atWork ∧
    (self.fillWork fastblock fruits bc).atCommintNewWoker = self.atCommintNewWoker ∧
    (self.fillWork fastblock fruits bc).mining = self.mining := by
  obtain ⟨f1, f2, _, f4, f5, f6, _⟩ := commitFastBlocks_frame self fastblock
  unfold worker.fillWork
  by_cases h1 : fastblock.isEmpty = true
  · by_cases h2 : fruits.isEmpty = true
    · simp [h1, h2]
    · have hh := commitFruits_header self.current fruits bc self.coinbase
      simp [h1, h2, hh]
  · by_cases h2 : fruits.isEmpty = true
    · simp [h1, h2, f1, f2, f4, f5, f6]
    · have hh := commitFruits_header (self.commitFastBlocks fastblock).1.current
        fruits bc (self.commitFastBlocks fastblock).1.coinbase
      simp [h1, h2, hh, f1, f2, f4, f5, f6]

theorem buildWork_spec (self : worker) (engine : Engine) (bc : SnailBlockChain)
    (fastblock : List Block) (fruits : List SnailBlock) :
    (self.buildWork engine bc fastblock fruits).1.current.header.Number =
      self.current.header.Number ∧
    (self.buildWork engine bc fastblock fruits).1.current.header.PointerHash =
      self.current.header.PointerHash ∧
    (((self.buildWork engine bc fastblock fruits).2 = [] ∧
        (self.buildWork engine bc fastblock fruits).1.atWork = self.atWork ∧
        (self.buildWork engine bc fastblock fruits).1.atCommintNewWoker = false) ∨
      ((self.buildWork engine bc fastblock fruits).1.current.header.FastNumber ≠ 0 ∨
          (self.buildWork engine bc fastblock fruits).1.current.fruits ≠ []) ∧
        self.mining = 1 ∧
        ∀ e ∈ (self.buildWork engine bc fastblock fruits).2,
          ∃ agent, e = Effect.Send agent (self.buildWork engine bc fastblock fruits).1.current) := by
  obtain ⟨g1, g2, g3, _, g5⟩ := fillWork_frame self fastblock fruits bc
  obtain ⟨s1, s2, s3⟩ := sealWork_spec (self.fillWork fastblock fruits bc) engine bc
  unfold worker.buildWork
  by_cases h1 : fastblock.isEmpty = true ∧ fruits.isEmpty = true
  · rw [if_pos h1]
    simp [worker.release]
  · rw [if_neg h1]
    simp only
    by_cases h2 : (NewSnailBlock (self.fillWork fastblock fruits bc).current.header
        (self.fillWork fastblock fruits bc).current.fruits
        (self.fillWork fastblock fruits bc).current.signs).FastNumber = 0 ∧
        (NewSnailBlock (self.fillWork fastblock fruits bc).current.header
          (self.fillWork fastblock fruits bc).current.fruits
          (self.fillWork fastblock fruits bc).current.signs).Fruits.isEmpty = true
    · rw [if_pos h2]
      simp [worker.release, g1, g2, g3]
    · rw [if_neg h2]
      refine ⟨by rw [s1, g1], by rw [s1, g2], ?_⟩
      rcases s3 with ⟨a1, a2, a3⟩ | ⟨b1, b2⟩
      · exact Or.inl ⟨a1, by rw [a2, g3], a3⟩
      · refine Or.inr ⟨?_, by rw [← g5]; exact b1, b2⟩
        rw [s1, s2]
        by_contra hc
        apply h2
        simp only [not_or, not_not] at hc
        simp [NewSnailBlock, SnailBlock.FastNumber, SnailBlock.Header, SnailBlock.Fruits, hc.1,
          hc.2]

theorem gatherWork_spec (self : worker) (engine : Engine) (pool : SnailPool)
    (bc : SnailBlockChain) :
    (self.gatherWork engine pool bc).1.current.header.Number = self.current.header.Number ∧
    (self.gatherWork engine pool bc).1.current.header.PointerHash =
      self.current.header.PointerHash ∧
    (((self.gatherWork engine pool bc).2 = [] ∧
        (self.gatherWork engine pool bc).1.atWork = self.atWork ∧
        (self.gatherWork engine pool bc).1.atCommintNewWoker = false) ∨
      ((self.gatherWork engine pool bc).1.current.header.FastNumber ≠ 0 ∨
          (self.gatherWork engine pool bc).1.current.fruits ≠ []) ∧
        self.mining = 1 ∧
        ∀ e ∈ (self.gatherWork engine pool bc).2,
          ∃ agent, e = Effect.Send agent (self.gatherWork engine pool bc).1.current) := by
  unfold worker.gatherWork
  cases pool.PendingFastBlocks with
  | none => simp [worker.release]
  | some fastblock =>
    cases pool.PendingFruits with
    | none => simp [worker.release]
    | some pending =>
      exact buildWork_spec self engine bc fastblock (if self.FruitOnly = true then [] else pending)

theorem pointerNumber_eq (parent : SnailBlock) (h : parent.Number < 2 ^ 64 + 7) :
    pointerNumber parent = Int.toNat (max ((parent.Number : Int) - 7) 0) := by
  unfold pointerNumber pointerHashFresh Uint64
  norm_num at h
  by_cases hlt : (parent.Number : Int) - 7 < 0
  · simp only [if_pos hlt]
    have : max ((parent.Number : Int) - 7) 0 = 0 := max_eq_right (by omega)
    rw [this]
    rfl
  · simp only [if_neg hlt]
    have : max ((parent.Number : Int) - 7) 0 = (parent.Number : Int) - 7 := max_eq_left (by omega)
    rw [this]
    apply Nat.mod_eq_of_lt
    norm_num
    omega

theorem daoExtra_frame (config : ChainConfig) (header : SnailHeader) :
    (daoExtra config header).Number = header.Number ∧
    (daoExtra config header).PointerHash = header.PointerHash := by
  unfold daoExtra
  cases config.DAOForkBlock with
  | none => simp
  | some daoBlock =>
    simp only
    split
    · split
      · simp
      · split <;> simp
    · simp

/-- C8, counterexample: the parent has number `2 ^ 64 + 7`, so the spec's
pointer block is the chain block of number `2 ^ 64`, with hash
`1000 + 2 ^ 64`; `commitNewWork` looks up the low 64 bits of that number,
zero, and drafts a header that points at block 0, with hash 1000. -/
theorem commitNewWork_pointer_wraps :
    chainWrap.CurrentBlock.Number = 2 ^ 64 + 7 ∧
    (chainWrap.GetBlockByNumber (2 ^ 64 + 7 - 7)).map SnailBlock.Hash = some (1000 + 2 ^ 64) ∧
    (((sampleWorker 0).commitNewWork sampleConfig sampleEngine (samplePool [] []) chainWrap 0).map
      (fun r => r.1.current.header.PointerHash)) = some 1000 := by
  decide

theorem commitNewWork_run (self : worker) (config : ChainConfig) (engine : Engine)
    (pool : SnailPool) (bc : SnailBlockChain) (now : Int) (difficulty : Nat)
    (pointer : SnailBlock)
    (hprep : engine.PrepareSnail bc (self.draftHeader bc.CurrentBlock now) = some difficulty)
    (hptr : bc.GetBlockByNumber (pointerNumber bc.CurrentBlock) = some pointer) :
    self.commitNewWork config engine pool bc now =
      some ((self.latch.makeCurrent bc bc.CurrentBlock
        (self.preparedHeader config bc.CurrentBlock now difficulty pointer) now).gatherWork
          engine pool bc) := by
  unfold worker.commitNewWork
  simp only [hprep, hptr]

theorem preparedHeader_frame (self : worker) (config : ChainConfig) (parent : SnailBlock)
    (now : Int) (difficulty : Nat) (pointer : SnailBlock) :
    (self.preparedHeader config parent now difficulty pointer).Number = parent.Number + 1 ∧
    (self.preparedHeader config parent now difficulty pointer).PointerHash = pointer.Hash := by
  unfold worker.preparedHeader
  obtain ⟨h1, h2⟩ := daoExtra_frame config
    { self.draftHeader parent now with Difficulty := difficulty, PointerHash := pointer.Hash }
  rw [h1, h2]
  simp [worker.draftHeader]

/-- C8, amended: for every parent block number `n` below `2 ^ 64 + 7`, when
the engine prepares the drafted header and the chain knows the block of number
`max (n - 7) 0`, `commitNewWork` returns with a current header of number
`n + 1` whose `PointerHash` is the hash of that block. -/
theorem commitNewWork_pointer (self : worker) (config : ChainConfig) (engine : Engine)
    (pool : SnailPool) (bc : SnailBlockChain) (now : Int) (n difficulty : Nat)
    (pointer : SnailBlock)
    (hn : bc.CurrentBlock.Number = n) (hbound : n < 2 ^ 64 + 7)
    (hprep : engine.PrepareSnail bc (self.draftHeader bc.CurrentBlock now) = some difficulty)
    (hptr : bc.GetBlockByNumber (Int.toNat (max ((n : Int) - 7) 0)) = some pointer) :
    ∃ w' effs, self.commitNewWork config engine pool bc now = some (w', effs) ∧
      w'.current.header.Number = n + 1 ∧
      w'.current.header.PointerHash = pointer.Hash := by
  have hpn : bc.GetBlockByNumber (pointerNumber bc.CurrentBlock) = some pointer := by
    rw [pointerNumber_eq bc.CurrentBlock (by rw [hn]; exact hbound), hn]
    exact hptr
  have hrun := commitNewWork_run self config engine pool bc now difficulty pointer hprep hpn
  obtain ⟨g1, g2, _⟩ := gatherWork_spec (self.latch.makeCurrent bc bc.CurrentBlock
    (self.preparedHeader config bc.CurrentBlock now difficulty pointer) now) engine pool bc
  obtain ⟨p1, p2⟩ := preparedHeader_frame self config bc.CurrentBlock now difficulty pointer
  simp only [worker.makeCurrent] at g1 g2
  rw [p1, hn] at g1
  rw [p2] at g2
  exact ⟨((self.latch.makeCurrent bc bc.CurrentBlock
      (self.preparedHeader config bc.CurrentBlock now difficulty pointer) now).gatherWork
        engine pool bc).1,
    ((self.latch.makeCurrent bc bc.CurrentBlock
      (self.preparedHeader config bc.CurrentBlock now difficulty pointer) now).gatherWork
        engine pool bc).2, hrun, g1, g2⟩

/-- C8, witness: the head of the chain is block 100; the drafted header has
number 101 and points at block 93. -/
theorem commitNewWork_pointer_witness :
    ∃ w' effs,
      (sampleWorker 0).commitNewWork sampleConfig sampleEngine (samplePool [] []) chain0 0 =
        some (w', effs) ∧
      w'.current.header.Number = 100 + 1 ∧
      w'.current.header.PointerHash = (sampleBlock 93 []).Hash :=
  commitNewWork_pointer (sampleWorker 0) sampleConfig sampleEngine (samplePool [] []) chain0 0
    100 1 (sampleBlock 93 []) rfl (by decide) rfl rfl

/-- C9: for every run of `commitNewWork` that returns, work is sent to an
agent only if it has a non-zero fast number or a non-empty fruit list;
whenever the candidate left in `current` has fast number zero and no fruits,
and in particular when the fast-block pool and the fruit pool both return
nothing, no agent receives work, `atWork` is unchanged and the
`atCommintNewWoker` latch is false on return. -/
theorem commitNewWork_nothing_to_mine (self : worker) (config : ChainConfig) (engine : Engine)
    (pool : SnailPool) (bc : SnailBlockChain) (now : Int) (w' : worker) (effs : List Effect)
    (h : self.commitNewWork config engine pool bc now = some (w', effs)) :
    (∀ agent work, Effect.Send agent work ∈ effs →
      work.header.FastNumber ≠ 0 ∨ work.fruits ≠ []) ∧
    (w'.current.header.FastNumber = 0 ∧ w'.current.fruits = [] →
      effs = [] ∧ w'.atWork = self.atWork ∧ w'.atCommintNewWoker = false) ∧
    (pool.PendingFastBlocks = some [] → pool.PendingFruits = some [] →
      effs = [] ∧ w'.atWork = self.atWork ∧ w'.atCommintNewWoker = false) := by
  cases hprep : engine.PrepareSnail bc (self.draftHeader bc.CurrentBlock now) with
  | none =>
    unfold worker.commitNewWork at h
    simp only [hprep, Option.some.injEq, Prod.mk.injEq] at h
    obtain ⟨rfl, rfl⟩ := h
    simp [worker.release, worker.latch]
  | some difficulty =>
    cases hptr : bc.GetBlockByNumber (pointerNumber bc.CurrentBlock) with
    | none =>
      unfold worker.commitNewWork at h
      simp [hprep, hptr] at h
    | some pointer =>
      rw [commitNewWork_run self config engine pool bc now difficulty pointer hprep hptr] at h
      have hspec := (gatherWork_spec (self.latch.makeCurrent bc bc.CurrentBlock
        (self.preparedHeader config bc.CurrentBlock now difficulty pointer) now)
        engine pool bc).2.2
      have hthird : pool.PendingFastBlocks = some [] → pool.PendingFruits = some [] →
          ((self.latch.makeCurrent bc bc.CurrentBlock
            (self.preparedHeader config bc.CurrentBlock now difficulty pointer) now).gatherWork
              engine pool bc).2 = [] ∧
          ((self.latch.makeCurrent bc bc.CurrentBlock
            (self.preparedHeader config bc.CurrentBlock now difficulty pointer) now).gatherWork
              engine pool bc).1.atWork = self.atWork ∧
          ((self.latch.makeCurrent bc bc.CurrentBlock
            (self.preparedHeader config bc.CurrentBlock now difficulty pointer) now).gatherWork
              engine pool bc).1.atCommintNewWoker = false := by
        intro hfb hfr
        simp [worker.gatherWork, worker.buildWork, hfb, hfr, worker.release, worker.makeCurrent,
          worker.latch]
      simp only [Option.some.injEq] at h
      rw [h] at hspec hthird
      simp only [worker.makeCurrent, worker.latch] at hspec
      refine ⟨?_, ?_, hthird⟩
      · intro agent work hmem
        rcases hspec with ⟨a1, _, _⟩ | ⟨b1, _, b3⟩
        · rw [a1] at hmem
          simp at hmem
        · obtain ⟨agent1, he⟩ := b3 _ hmem
          injection he with _ hw
          rw [hw]
          exact b1
      · intro hempty
        rcases hspec with a | ⟨b1, _, _⟩
        · exact a
        · rcases b1 with b | b
          · exact absurd hempty.1 b
          · exact absurd hempty.2 b

/-- C9, witness: both pools return nothing on the chain headed by block 100;
the run returns, sends nothing, leaves `atWork` at its value and the latch
false. -/
theorem commitNewWork_nothing_to_mine_witness :
    ∃ w', (sampleWorker 0).commitNewWork sampleConfig sampleEngine (samplePool [] []) chain0 0 =
        some (w', []) ∧
      w'.atWork = (sampleWorker 0).atWork ∧ w'.atCommintNewWoker = false :=
  ⟨((sampleWorker 0).latch.makeCurrent chain0 chain0.CurrentBlock
      ((sampleWorker 0).preparedHeader sampleConfig chain0.CurrentBlock 0 1 (sampleBlock 93 []))
      0).release,
    rfl,
    ((commitNewWork_nothing_to_mine (sampleWorker 0) sampleConfig sampleEngine (samplePool [] [])
      chain0 0 _ [] rfl).2.2 rfl rfl).2⟩

/-- C10, counterexample: fruit-only mode, mining on, parent without fruits,
pending fruits 10, 11, 12 that are all fresh, and no pending fast block:
`commitNewWork` sends no work, the candidate has no fruits and the latch is
false on return. -/
theorem commitNewWork_fruitOnly_drops :
    sampleWorkerFruitOnly.FruitOnly = true ∧ sampleWorkerFruitOnly.mining = 1 ∧
    (sampleWorkerFruitOnly.commitNewWork sampleConfig sampleEngine (samplePool [] sampleFruits)
        chain0 0).map
      (fun r => (r.2.length, r.1.current.fruits.map SnailBlock.FastNumber,
        r.1.atCommintNewWoker)) = some (0, [], false) := by
  decide

/-- Fruit-only mode switched off, mining on, parent without fruits, pending
fruits 10, 11, 12 that are all fresh, and no pending fast block: the candidate
carries the fruits 10, 11, 12, has fast number 0 and is sent to the one
agent. -/
theorem commitNewWork_fruits_selected :
    ((sampleWorker 0).commitNewWork sampleConfig sampleEngine (samplePool [] sampleFruits)
        chain0 0).map
      (fun r => (r.2.length, r.1.current.fruits.map SnailBlock.FastNumber,
        r.1.current.header.FastNumber)) = some (1, [10, 11, 12], 0) := by
  decide

theorem preparedHeader_FastNumber (self : worker) (config : ChainConfig) (parent : SnailBlock)
    (now : Int) (difficulty : Nat) (pointer : SnailBlock) :
    (self.preparedHeader config parent now difficulty pointer).FastNumber = 0 := by
  unfold worker.preparedHeader daoExtra
  cases config.DAOForkBlock with
  | none => simp [worker.draftHeader]
  | some daoBlock =>
    simp only
    split
    · split
      · simp [worker.draftHeader]
      · split <;> simp [worker.draftHeader]
    · simp [worker.draftHeader]

theorem commitFastBlocks_none (self : worker) (fastBlocks : List Block)
    (hsel : (selectFastBlock fastBlocks self.FastBlockNumber).2 = none) :
    (self.commitFastBlocks fastBlocks).1.current = self.current ∧
    (self.commitFastBlocks fastBlocks).1.atWork = self.atWork := by
  unfold worker.commitFastBlocks
  by_cases hm : self.mining = 0
  · simp [hm]
  · rw [if_neg hm]
    by_cases he : fastBlocks.isEmpty = true
    · simp [he]
    · rw [if_neg he]
      split
      · simp
      · rename_i h
        rw [h] at hsel
        simp at hsel

theorem buildWork_fruitOnly (self : worker) (engine : Engine) (bc : SnailBlockChain)
    (fastblock : List Block)
    (hsel : (selectFastBlock fastblock self.FastBlockNumber).2 = none)
    (hfast : self.current.header.FastNumber = 0) (hfruits : self.current.fruits = []) :
    (self.buildWork engine bc fastblock []).2 = [] ∧
    (self.buildWork engine bc fastblock []).1.current.fruits = [] ∧
    (self.buildWork engine bc fastblock []).1.current.header.FastNumber = 0 ∧
    (self.buildWork engine bc fastblock []).1.atWork = self.atWork ∧
    (self.buildWork engine bc fastblock []).1.atCommintNewWoker = false := by
  obtain ⟨c1, c2⟩ := commitFastBlocks_none self fastblock hsel
  unfold worker.buildWork
  by_cases h1 : fastblock.isEmpty = true
  · simp [h1, worker.release, hfast, hfruits]
  · simp [h1, worker.release, worker.fillWork, NewSnailBlock, SnailBlock.FastNumber,
      SnailBlock.Header, SnailBlock.Fruits, c1, c2, hfast, hfruits]

/-- C10, amended: in fruit-only mode `commitNewWork` drops the pending fruits.
Whatever fruits the pool returns, when no pending fast block is selectable
the run returns without sending work to any agent, the candidate has no
fruits and fast number 0, `atWork` is unchanged and the build latch is false
on return. -/
theorem commitNewWork_fruitOnly (self : worker) (config : ChainConfig) (engine : Engine)
    (pool : SnailPool) (bc : SnailBlockChain) (now : Int) (difficulty : Nat)
    (pointer : SnailBlock) (fastblock : List Block) (pending : List SnailBlock)
    (hFO : self.FruitOnly = true)
    (hprep : engine.PrepareSnail bc (self.draftHeader bc.CurrentBlock now) = some difficulty)
    (hptr : bc.GetBlockByNumber (pointerNumber bc.CurrentBlock) = some pointer)
    (hfb : pool.PendingFastBlocks = some fastblock) (hfr : pool.PendingFruits = some pending)
    (hsel : (selectFastBlock fastblock self.FastBlockNumber).2 = none) :
    ∃ w', self.commitNewWork config engine pool bc now = some (w', []) ∧
      w'.current.fruits = [] ∧ w'.current.header.FastNumber = 0 ∧
      w'.atWork = self.atWork ∧ w'.atCommintNewWoker = false := by
  have hrun := commitNewWork_run self config engine pool bc now difficulty pointer hprep hptr
  have hb := buildWork_fruitOnly (self.latch.makeCurrent bc bc.CurrentBlock
    (self.preparedHeader config bc.CurrentBlock now difficulty pointer) now) engine bc fastblock
    (by simpa [worker.makeCurrent, worker.latch] using hsel)
    (by simp [worker.makeCurrent, preparedHeader_FastNumber])
    (by simp [worker.makeCurrent])
  have hg : (self.latch.makeCurrent bc bc.CurrentBlock
      (self.preparedHeader config bc.CurrentBlock now difficulty pointer) now).gatherWork
        engine pool bc =
      (self.latch.makeCurrent bc bc.CurrentBlock
        (self.preparedHeader config bc.CurrentBlock now difficulty pointer) now).buildWork
          engine bc fastblock [] := by
    simp [worker.gatherWork, hfb, hfr, worker.makeCurrent, worker.latch, hFO]
  rw [hg] at hrun
  obtain ⟨b1, b2, b3, b4, b5⟩ := hb
  refine ⟨((self.latch.makeCurrent bc bc.CurrentBlock
      (self.preparedHeader config bc.CurrentBlock now difficulty pointer) now).buildWork
        engine bc fastblock []).1, ?_, b2, b3, ?_, b5⟩
  · rw [hrun, ← b1]
  · rw [b4]
    simp [worker.makeCurrent, worker.latch]

/-- C10, witness: the fruit-only worker, pending fruits 10, 11, 12 and the
pending fast blocks empty. -/
theorem commitNewWork_fruitOnly_witness :
    ∃ w', sampleWorkerFruitOnly.commitNewWork sampleConfig sampleEngine
        (samplePool [] sampleFruits) chain0 0 = some (w', []) ∧
      w'.current.fruits = [] ∧ w'.current.header.FastNumber = 0 ∧
      w'.atWork = sampleWorkerFruitOnly.atWork ∧ w'.atCommintNewWoker = false :=
  commitNewWork_fruitOnly sampleWorkerFruitOnly sampleConfig sampleEngine
    (samplePool [] sampleFruits) chain0 0 1 (sampleBlock 93 []) [] sampleFruits rfl rfl rfl rfl
    rfl rfl

/-! ## Properties of uncle admission and of `commitFruit` -/

/-- C12: for every work and uncle header, `commitUncle` returns no error
exactly when the hash of the uncle is not in `work.uncles`, its parent hash is
in `work.ancestors` and its hash is not in `work.family`. It reports
non-unique first, then unknown parent, then already in family. On success
`work.uncles` gains exactly that hash, on failure `work.uncles` is unchanged,
and `ancestors` and `family` are never modified. -/
theorem commitUncle_outcome (work : Work) (uncle : SnailHeader) :
    ((worker.commitUncle work uncle).2 = none ↔
      uncle.hash ∉ work.uncles ∧ uncle.ParentHash ∈ work.ancestors ∧
        uncle.hash ∉ work.family) ∧
    (uncle.hash ∈ work.uncles →
      (worker.commitUncle work uncle).2 = some Err.uncleNotUnique) ∧
    (uncle.hash ∉ work.uncles → uncle.ParentHash ∉ work.ancestors →
      (worker.commitUncle work uncle).2 = some Err.uncleParentUnknown) ∧
    (uncle.hash ∉ work.uncles → uncle.ParentHash ∈ work.ancestors → uncle.hash ∈ work.family →
      (worker.commitUncle work uncle).2 = some Err.uncleInFamily) ∧
    ((worker.commitUncle work uncle).2 = none →
      (worker.commitUncle work uncle).1.uncles = work.uncles ++ [uncle.hash]) ∧
    ((worker.commitUncle work uncle).2 ≠ none →
      (worker.commitUncle work uncle).1.uncles = work.uncles) ∧
    (worker.commitUncle work uncle).1.ancestors = work.ancestors ∧
    (worker.commitUncle work uncle).1.family = work.family := by
  unfold worker.commitUncle
  by_cases h1 : uncle.hash ∈ work.uncles
  · simp [h1]
  · by_cases h2 : uncle.ParentHash ∈ work.ancestors
    · by_cases h3 : uncle.hash ∈ work.family
      · simp [h1, h2, h3]
      · simp [h1, h2, h3, setAdd]
    · simp [h1, h2]

/-- C13: for every fruit, baseline and candidate header, `commitFruit` returns
no error exactly when the fast number of the fruit is above the baseline, its
pointer hash resolves to a chain block, and the header number minus the number
of that block is at most 17. Otherwise the error is the invalid-number error
when the fast number is not above the baseline, else the invalid-pointer error
when the pointer does not resolve, else the freshness error. -/
theorem commitFruit_outcome (env : Work) (fruit : SnailBlock) (bc : SnailBlockChain)
    (lastNumber : Nat) :
    (env.commitFruit fruit bc lastNumber = none ↔
      lastNumber < fruit.FastNumber ∧
      ∃ pointer, bc.GetBlockByHash fruit.PointerHash = some pointer ∧
        (env.header.Number : Int) - (pointer.Number : Int) ≤ 17) ∧
    (fruit.FastNumber ≤ lastNumber →
      env.commitFruit fruit bc lastNumber = some Err.ErrInvalidNumber) ∧
    (lastNumber < fruit.FastNumber → bc.GetBlockByHash fruit.PointerHash = none →
      env.commitFruit fruit bc lastNumber = some Err.ErrInvalidPointer) ∧
    (∀ pointer, lastNumber < fruit.FastNumber →
      bc.GetBlockByHash fruit.PointerHash = some pointer →
      (env.header.Number : Int) - (pointer.Number : Int) > 17 →
      env.commitFruit fruit bc lastNumber = some Err.ErrFreshness) := by
  refine ⟨commitFruit_eq_none_iff env fruit bc lastNumber, ?_, ?_, ?_⟩
  · intro h
    simp [Work.commitFruit, h]
  · intro h hp
    have hn : ¬ fruit.FastNumber ≤ lastNumber := by omega
    simp [Work.commitFruit, hn, hp]
  · intro pointer h hp hfresh
    have hn : ¬ fruit.FastNumber ≤ lastNumber := by omega
    simp [Work.commitFruit, hn, hp, fruitFreshness, hfresh]

/-- C13, witness: the pointer of the fruit resolves to block 100. With
candidate header number 120 the fruit is rejected for freshness (20 > 17);
with header number 117, a difference of exactly 17, it is accepted. -/
theorem commitFruit_outcome_witness :
    (sampleWork (sampleHeader 120 0)).commitFruit (sampleFruit 41 1100) chain0 40 =
      some Err.ErrFreshness ∧
    (sampleWork (sampleHeader 117 0)).commitFruit (sampleFruit 41 1100) chain0 40 = none :=
  ⟨(commitFruit_outcome (sampleWork (sampleHeader 120 0)) (sampleFruit 41 1100) chain0
      40).2.2.2 (sampleBlock 100 []) (by decide) rfl (by decide),
    (commitFruit_outcome (sampleWork (sampleHeader 117 0)) (sampleFruit 41 1100) chain0
      40).1.mpr ⟨by decide, sampleBlock 100 [], rfl, by decide⟩⟩

theorem wrapInt32_pred (x : Int) (h1 : -2 ^ 31 < x) (h2 : x < 2 ^ 31) :
    wrapInt32 (x - 1) = x - 1 := by
  unfold wrapInt32
  norm_num at h1 h2 ⊢
  omega

/-- C14, counterexample: the worker has `atWork = -2147483648`, the least
`int32`, and receives a sealed full block whose chain write fails: `atWork`
afterwards is 2147483647, not one less than before. -/
theorem wait_write_error_wraps :
    sampleIsFruit sampleSealed.Block = false ∧ sampleWriteFails sampleSealed.Block = none ∧
    sampleWorkerLow.atWork = -2147483648 ∧
    (sampleWorkerLow.wait sampleIsFruit sampleWriteFails (some sampleSealed)).1.atWork =
      2147483647 := by
  decide

/-- C14, amended: when the result pipeline processes a sealed block that is
not a fruit and whose canonical write fails, the result is dropped: no call is
made (no `NewMinedBlockEvent`, no `ChainEvent`, no `ChainHeadEvent`), nothing
is inserted into the unconfirmed tracker, and the worker afterwards is the
worker before except for `atWork`, so the watermark and the
`atCommintNewWoker` latch keep their values. `atWork` gets the `int32`
decrement: one less than before from every value above `-2 ^ 31`, and
`2 ^ 31 - 1` from `-2 ^ 31`. -/
theorem wait_write_error (self : worker) (IsFruit : SnailBlock → Bool)
    (WriteCanonicalBlock : SnailBlock → Option WriteStatus) (result : Result)
    (hblock : IsFruit result.Block = false)
    (herr : WriteCanonicalBlock result.Block = none) :
    self.wait IsFruit WriteCanonicalBlock (some result) =
      ({ self with atWork := wrapInt32 (self.atWork - 1) }, []) ∧
    (self.wait IsFruit WriteCanonicalBlock (some result)).2 = [] ∧
    (self.wait IsFruit WriteCanonicalBlock (some result)).1.unconfirmed = self.unconfirmed ∧
    (self.wait IsFruit WriteCanonicalBlock (some result)).1.FastBlockNumber =
      self.FastBlockNumber ∧
    (self.wait IsFruit WriteCanonicalBlock (some result)).1.atCommintNewWoker =
      self.atCommintNewWoker ∧
    (-2 ^ 31 < self.atWork → self.atWork < 2 ^ 31 →
      (self.wait IsFruit WriteCanonicalBlock (some result)).1.atWork = self.atWork - 1) ∧
    (self.atWork = -2 ^ 31 →
      (self.wait IsFruit WriteCanonicalBlock (some result)).1.atWork = 2 ^ 31 - 1) := by
  have h : self.wait IsFruit WriteCanonicalBlock (some result) =
      ({ self with atWork := wrapInt32 (self.atWork - 1) }, []) := by
    simp [worker.wait, hblock, herr]
  rw [h]
  refine ⟨rfl, rfl, rfl, rfl, rfl, ?_, ?_⟩
  · intro h1 h2
    exact wrapInt32_pred self.atWork h1 h2
  · intro h0
    simp only [h0]
    decide

/-- C14, witness: the worker at watermark 55 with `atWork = 0` receives a
sealed full block and the chain write fails. -/
theorem wait_write_error_witness :
    sampleIsFruit sampleSealed.Block = false ∧ sampleWriteFails sampleSealed.Block = none ∧
    ((sampleWorker 55).wait sampleIsFruit sampleWriteFails (some sampleSealed)).2 = [] ∧
    ((sampleWorker 55).wait sampleIsFruit sampleWriteFails (some sampleSealed)).1.unconfirmed =
      (sampleWorker 55).unconfirmed ∧
    ((sampleWorker 55).wait sampleIsFruit sampleWriteFails
      (some sampleSealed)).1.FastBlockNumber = 55 ∧
    ((sampleWorker 55).wait sampleIsFruit sampleWriteFails
      (some sampleSealed)).1.atCommintNewWoker = (sampleWorker 55).atCommintNewWoker ∧
    ((sampleWorker 55).wait sampleIsFruit sampleWriteFails (some sampleSealed)).1.atWork = -1 :=
  ⟨rfl, rfl,
    (wait_write_error (sampleWorker 55) sampleIsFruit sampleWriteFails sampleSealed rfl
      rfl).2.1,
    (wait_write_error (sampleWorker 55) sampleIsFruit sampleWriteFails sampleSealed rfl
      rfl).2.2.1,
    (wait_write_error (sampleWorker 55) sampleIsFruit sampleWriteFails sampleSealed rfl
      rfl).2.2.2.1,
    (wait_write_error (sampleWorker 55) sampleIsFruit sampleWriteFails sampleSealed rfl
      rfl).2.2.2.2.1,
    (wait_write_error (sampleWorker 55) sampleIsFruit sampleWriteFails sampleSealed rfl
      rfl).2.2.2.2.2.1 (by decide) (by decide)⟩

theorem commitContinued_sets (bc : SnailBlockChain) (lastFastNumber : Nat)
    (l : List SnailBlock) :
    ∀ env : Work,
      (commitContinued bc lastFastNumber l env).uncles = env.uncles ∧
      (commitContinued bc lastFastNumber l env).ancestors = env.ancestors ∧
      (commitContinued bc lastFastNumber l env).family = env.family := by
  induction l with
  | nil =>
    intro env
    simp [commitContinued]
  | cons fruit rest ih =>
    intro env
    simp only [commitContinued]
    cases env.commitFruit fruit bc lastFastNumber with
    | none => exact ih { env with fruits := env.fruits ++ [fruit] }
    | some e => exact ih env

theorem commitFastBlocks_sets (self : worker) (fastBlocks : List Block) :
    (self.commitFastBlocks fastBlocks).1.current.uncles = self.current.uncles ∧
    (self.commitFastBlocks fastBlocks).1.current.ancestors = self.current.ancestors ∧
    (self.commitFastBlocks fastBlocks).1.current.family = self.current.family := by
  unfold worker.commitFastBlocks
  split
  · simp
  · split
    · simp
    · split <;> simp

/-- The work on which the uncle loop of `commitNewWork` runs is the one
`makeCurrent` created: filling it with the fast block and the fruits leaves
its uncle set empty and its ancestors and family as created. -/
theorem fillWork_sets (self : worker) (bc : SnailBlockChain) (parent : SnailBlock)
    (header : SnailHeader) (now : Int) (fastblock : List Block) (fruits : List SnailBlock) :
    ((self.makeCurrent bc parent header now).fillWork fastblock fruits bc).current.uncles = [] ∧
    ((self.makeCurrent bc parent header now).fillWork fastblock fruits bc).current.ancestors =
      (self.makeCurrent bc parent header now).current.ancestors ∧
    ((self.makeCurrent bc parent header now).fillWork fastblock fruits bc).current.family =
      (self.makeCurrent bc parent header now).current.family := by
  have hfresh : (self.makeCurrent bc parent header now).current.uncles = [] := rfl
  obtain ⟨f1, f2, f3⟩ := commitFastBlocks_sets (self.makeCurrent bc parent header now) fastblock
  unfold worker.fillWork
  by_cases h1 : fastblock.isEmpty = true
  · by_cases h2 : fruits.isEmpty = true
    · simp [h1, h2, hfresh]
    · obtain ⟨c1, c2, c3⟩ := commitContinued_sets bc (lastFastNumberOf bc)
        (continueFruits (lastFastNumberOf bc) fruits false [])
        (self.makeCurrent bc parent header now).current
      simp [h1, h2, Work.commitFruits, c1, c2, c3, hfresh]
  · by_cases h2 : fruits.isEmpty = true
    · simp [h1, h2, f1, f2, f3, hfresh]
    · obtain ⟨c1, c2, c3⟩ := commitContinued_sets bc (lastFastNumberOf bc)
        (continueFruits (lastFastNumberOf bc) fruits false [])
        ((self.makeCurrent bc parent header now).commitFastBlocks fastblock).1.current
      simp [h1, h2, Work.commitFruits, c1, c2, c3, f1, f2, f3, hfresh]

end Miner
